import Mathlib

/-!
Render-blocking script analyzer.

A shallow embedding of `render-blocking-analyzer.js`.  The script is a
single async function run in a browser console.  Its collaborators (the
document tree, the URL parser, the page location and the network) are made
explicit: the document is a list of elements in tree order, each with its
namespace, the host functions are fields of `Env`, and the network is a list
of probe completions (`ProbeEvent`) delivered in an arbitrary order.

JavaScript built-ins the script calls (`split`, `slice`, `join`,
`parseInt`, `/`, `toFixed`) are modelled after ECMA-262.
-/

namespace RenderBlockingAnalyzer

/-! ## JavaScript values -/

/-- An exception value (a thrown error or a promise rejection reason). -/
structure JSError where
  message : String
deriving DecidableEq, Repr

/-- A Number value as far as the script can produce one: `NaN`, an infinity,
or the finite value `num / 2 ^ exp`.  Every finite double is of that form;
the script only ever builds integers (`exp = 0`) and integers divided by
1024 (`exp = 10`). -/
inductive JSNumber where
  | nan
  | infinity (negative : Bool)
  | finite (num : Int) (exp : Nat)
deriving DecidableEq, Repr

/-- The value bound to `fileSizeInBytes`: what `getFileSize` resolves to is
either a Number or one of the strings. -/
inductive SizeValue where
  | number (x : JSNumber)
  | string (s : String)
deriving DecidableEq, Repr

/-! ## String and array built-ins -/

/-- Pieces of a character list cut at every occurrence of `sep`; empty pieces
are kept, and the result always has at least one piece. -/
def splitChars (sep : Char) : List Char → List (List Char)
  | [] => [[]]
  | c :: cs =>
    if c = sep then [] :: splitChars sep cs
    else
      match splitChars sep cs with
      | [] => [[c]]
      | p :: ps => (c :: p) :: ps

/-- The call `s.split(sep)` for a one-character separator. -/
def jsSplit (sep : Char) (s : String) : List String :=
  (splitChars sep s.data).map String.mk

/-- The call `xs.slice(start)`: a negative `start` counts from the end and is
clamped at the front; a `start` past the end gives the empty array. -/
def jsSlice {α : Type} (start : Int) (xs : List α) : List α :=
  let len : Int := xs.length
  let k : Int := if start < 0 then max (len + start) 0 else min start len
  xs.drop k.toNat

/-- The call `xs.join(sep)` on an array of strings. -/
def jsJoin (sep : String) (xs : List String) : String :=
  sep.intercalate xs

/-! ## Number built-ins -/

/-- The characters `parseInt` skips at the front (WhiteSpace and
LineTerminator of ECMA-262). -/
def isStrWhiteSpaceChar (c : Char) : Bool :=
  let n := c.toNat
  n = 0x09 || n = 0x0A || n = 0x0B || n = 0x0C || n = 0x0D || n = 0x20 ||
  n = 0xA0 || n = 0x1680 || (0x2000 ≤ n && n ≤ 0x200A) || n = 0x2028 ||
  n = 0x2029 || n = 0x202F || n = 0x205F || n = 0x3000 || n = 0xFEFF

/-- Number of binary digits of `n`, by repeated halving (at most `fuel`
times). -/
def bitLengthAux : Nat → Nat → Nat
  | 0, _ => 0
  | fuel + 1, n => if n = 0 then 0 else bitLengthAux fuel (n / 2) + 1

/-- Number of binary digits of `n`. -/
def bitLength (n : Nat) : Nat :=
  bitLengthAux n n

/-- The double nearest to the natural number `n` (ties to even), or `none`
when `n` rounds to infinity (the rounded value needs more than 1024 bits).
Numbers below `2 ^ 53` are exact. -/
def roundToDouble (n : Nat) : Option Nat :=
  if n < 2 ^ 53 then some n
  else
    let sh := bitLength n - 53
    let q := n / 2 ^ sh
    let r := n % 2 ^ sh
    let half := 2 ^ (sh - 1)
    let q := if half < r ∨ (r = half ∧ q % 2 = 1) then q + 1 else q
    let v := q * 2 ^ sh
    if bitLength v ≤ 1024 then some v else none

/-- The value of a run of decimal digits. -/
def decimalValue (ds : List Char) : Nat :=
  ds.foldl (fun acc c => 10 * acc + (c.toNat - 48)) 0

/-- An optional sign at the front: whether it is a minus, and what follows. -/
def readSign (cs : List Char) : Bool × List Char :=
  match cs with
  | '-' :: rest => (true, rest)
  | '+' :: rest => (false, rest)
  | _ => (false, cs)

/-- The call `parseInt(s, 10)`: skip leading white space, read an optional
sign, then the longest run of decimal digits; no digit gives `NaN`; the
mathematical integer read is converted to a Number (correctly rounded). -/
def parseInt (s : String) : JSNumber :=
  let signed := readSign (s.data.dropWhile isStrWhiteSpaceChar)
  let ds := signed.2.takeWhile Char.isDigit
  if ds.isEmpty then JSNumber.nan
  else
    match roundToDouble (decimalValue ds) with
    | some v => JSNumber.finite (if signed.1 then -(v : Int) else (v : Int)) 0
    | none => JSNumber.infinity signed.1

/-- The quotient `x / 2 ^ k`.  Dividing a double by a power of two only
moves the exponent, so the quotient is exact (the script divides integers
by 1024, where no underflow can occur). -/
def JSNumber.divPow2 (x : JSNumber) (k : Nat) : JSNumber :=
  match x with
  | JSNumber.nan => JSNumber.nan
  | JSNumber.infinity negative => JSNumber.infinity negative
  | JSNumber.finite num exp => JSNumber.finite num (exp + k)

/-- The call `x.toFixed(f)` of ECMA-262.  `largeToString a e` stands for
`Number::toString` on the finite magnitude `a / 2 ^ e` when it is at least
`10 ^ 21` (exponent form), which is left to the host. -/
def JSNumber.toFixed (largeToString : Nat → Nat → String) (x : JSNumber) (f : Nat) :
    String :=
  match x with
  | JSNumber.nan => "NaN"
  | JSNumber.infinity negative => if negative then "-Infinity" else "Infinity"
  | JSNumber.finite num exp =>
    let s := if num < 0 then "-" else ""
    let a := num.natAbs
    if 10 ^ 21 * 2 ^ exp ≤ a then s ++ largeToString a exp
    else
      -- the integer n with n / 10 ^ f closest to a / 2 ^ exp, the larger on a tie
      let n := (2 * a * 10 ^ f + 2 ^ exp) / (2 * 2 ^ exp)
      let m : List Char := if n = 0 then [ '0'] else Nat.toDigits 10 n
      let m : List Char :=
        if f ≠ 0 then
          let m := if m.length ≤ f then List.replicate (f + 1 - m.length) '0' ++ m else m
          m.take (m.length - f) ++ [ '.'] ++ m.drop (m.length - f)
        else m
      s ++ String.mk m

/-! ## The host environment -/

/-- A successful settle of `fetch`: the `ok` flag of the response and its
`headers.get` method. -/
structure Response where
  ok : Bool
  headersGet : String → Option String

/-- The browser facilities the script reads besides the document tree. -/
structure Env where
  /-- The expression `new URL(url).hostname`: the hostname, or the error the
  constructor throws. -/
  urlHostname : String → Except JSError String
  /-- The value of `window.location.hostname`. -/
  locationHostname : String
  /-- The `src` property of a script element whose `src` attribute has the
  given value (the attribute resolved against the document base URL). -/
  resolveSrc : String → String
  /-- The host part of `toFixed`, see `JSNumber.toFixed`. -/
  largeToString : Nat → Nat → String

/-- The namespace of HTML elements. -/
def htmlNamespace : String :=
  "http://www.w3.org/1999/xhtml"

/-- The namespace of SVG elements. -/
def svgNamespace : String :=
  "http://www.w3.org/2000/svg"

/-- An element of the document: its namespace, its local name and its
attributes (name and value). -/
structure Element where
  namespaceURI : String
  localName : String
  attributes : List (String × String)
deriving DecidableEq, Repr

/-- The document: its elements in tree order. -/
abbrev Document := List Element

/-- The method `element.hasAttribute(name)`. -/
def Element.hasAttribute (e : Element) (name : String) : Bool :=
  e.attributes.any (fun a => a.1 == name)

/-- The method `element.getAttribute(name)`. -/
def Element.getAttribute (e : Element) (name : String) : Option String :=
  (e.attributes.find? (fun a => a.1 == name)).map (fun a => a.2)

/-- The string a value that is a string or `undefined` (`none`) converts to,
as `new URL`, `fetch` and a template literal convert their argument. -/
def jsToString : Option String → String
  | some s => s
  | none => "undefined"

/-- The property `script.src`, with `none` for `undefined`.  Only an HTML
element has the property (it is the empty string without a `src`
attribute); an SVG `script`, which the selector of line 37 also matches, has
none, whatever its attributes. -/
def Element.src (env : Env) (e : Element) : Option String :=
  if e.namespaceURI = htmlNamespace then
    match e.getAttribute "src" with
    | some value => some (env.resolveSrc value)
    | none => some ""
  else none

/-! ## The script -/

/-- One row of the table.  The `URL` is the value of `script.src`, which is
`undefined` (`none`) for a script that is not an HTML element. -/
structure ScriptRecord where
  URL : Option String
  Domain : String
  /-- The column `File Size (KB)`. -/
  fileSizeKB : String
deriving DecidableEq, Repr

/-- What the script writes to the console. -/
inductive ConsoleEvent where
  | log (message : String)
  | error (message : String) (err : JSError)
  | table (rows : List ScriptRecord)
deriving DecidableEq, Repr

/-- The message of the empty case (line 47). -/
def noBlockingMessage : String :=
  "🎉 No render-blocking scripts were found on the entire page. Good job!"

/-- The heading printed before the table (line 88). -/
def foundMessage : String :=
  "🕵️‍♀️ Found the following render-blocking scripts:"

/-- Lines 20-31, `getFileSize`.  `fetch` is the HEAD request: it gives the
response or the rejection reason.  The console is threaded through; the
result is an `Except` so that an escaping exception could be expressed. -/
def getFileSize (fetch : String → Except JSError Response) (url : String)
    (console : List ConsoleEvent) : Except JSError (SizeValue × List ConsoleEvent) :=
  match fetch url with
  | Except.ok response =>
    if response.ok then
      match response.headersGet "content-length" with
      | some contentLength =>
        -- a string is truthy unless it is empty
        if contentLength ≠ "" then Except.ok (SizeValue.number (parseInt contentLength), console)
        else Except.ok (SizeValue.string "N/A", console)
      | none => Except.ok (SizeValue.string "N/A", console)
    else Except.ok (SizeValue.string "Unavailable", console)
  | Except.error err =>
    Except.ok (SizeValue.string "Unavailable",
      console ++ [ConsoleEvent.error ("Could not fetch size for " ++ url ++ ":") err])

/-- Line 37, `document.querySelectorAll('script[src]')`. -/
def scriptElements (doc : Document) : List Element :=
  doc.filter (fun e => e.localName == "script" && e.hasAttribute "src")

/-- Lines 41-43, `blockingScripts`, as a function of `scriptElements`. -/
def blockingScripts (scriptElements : List Element) : List Element :=
  scriptElements.filter
    (fun script => !script.hasAttribute "async" && !script.hasAttribute "defer")

/-- Lines 59-65, the body of the `try` once the hostname is known. -/
def domainOfHostname (hostname : String) : String :=
  let parts := jsSplit '.' hostname
  if parts.length > 1 then jsJoin "." (jsSlice (-2) parts) else hostname

/-- Line 68, the body of the `catch`. -/
def fallbackDomain (env : Env) : String :=
  jsJoin "." (jsSlice (-2) (jsSplit '.' env.locationHostname))

/-- Lines 54-69, the value of `domain` after the `try`/`catch`. -/
def deriveDomain (env : Env) (url : String) : Except JSError String :=
  match env.urlHostname url with
  | Except.ok hostname => Except.ok (domainOfHostname hostname)
  | Except.error _ => Except.ok (fallbackDomain env)

/-- Lines 73-75, `fileSizeInKB`: `typeof fileSizeInBytes === 'number'`
holds for every Number, `NaN` and the infinities included. -/
def fileSizeInKB (env : Env) (fileSizeInBytes : SizeValue) : String :=
  match fileSizeInBytes with
  | SizeValue.number x => (x.divPow2 10).toFixed env.largeToString 2
  | SizeValue.string s => s

/-- One call of the async callback of line 52, suspended at
`await getFileSize(url)`: the locals it has computed so far. -/
structure Task where
  url : Option String
  domain : String
deriving DecidableEq, Repr

/-- Lines 53-71 up to the `await`: the synchronous part of the callback. -/
def beginTask (env : Env) (script : Element) : Except JSError Task :=
  let url := script.src env
  match deriveDomain env (jsToString url) with
  | Except.ok domain => Except.ok { url := url, domain := domain }
  | Except.error err => Except.error err

/-- Lines 71-81: the callback resumed with the outcome of its probe; it
gives the record it pushes and the console after it. -/
def completeTask (env : Env) (task : Task) (outcome : Except JSError Response)
    (console : List ConsoleEvent) : Except JSError (ScriptRecord × List ConsoleEvent) :=
  match getFileSize (fun _ => outcome) (jsToString task.url) console with
  | Except.ok (fileSizeInBytes, console) =>
    Except.ok
      ({ URL := task.url, Domain := task.domain, fileSizeKB := fileSizeInKB env fileSizeInBytes },
        console)
  | Except.error err => Except.error err

/-- Lines 52-82 for one script: the record its callback pushes when its
probe has the given outcome, or `none` if an error escapes the callback. -/
def enrich (env : Env) (script : Element) (outcome : Except JSError Response) :
    Option ScriptRecord :=
  match beginTask env script with
  | Except.ok task =>
    match completeTask env task outcome [] with
    | Except.ok (record, _) => some record
    | Except.error _ => none
  | Except.error _ => none

/-- The network telling the script that the probe of the candidate with
index `task` (in document order) has settled, with its outcome. -/
structure ProbeEvent where
  task : Nat
  outcome : Except JSError Response

/-- The state of a run between two turns of the event loop. -/
structure RunState where
  /-- The callbacks started by `blockingScripts.map`, in document order. -/
  tasks : List Task
  /-- Indices of the callbacks that have run to their end, in that order. -/
  settled : List Nat
  /-- The array of line 34. -/
  renderBlockingScripts : List ScriptRecord
  console : List ConsoleEvent
  /-- The URLs handed to `fetch` so far, as strings. -/
  probes : List String
  /-- The reason of the first rejected callback, if any. -/
  rejected : Option JSError

/-- Lines 52-82, the synchronous pass of `map`: every callback runs up to its
`await`, so every probe is issued, in document order. -/
def startTasks (env : Env) : List Element → RunState → RunState
  | [], st => st
  | script :: rest, st =>
    match beginTask env script with
    | Except.ok task =>
      startTasks env rest
        { st with tasks := st.tasks ++ [task], probes := st.probes ++ [jsToString task.url] }
    | Except.error err =>
      -- a callback that throws before its await gives a rejected promise
      startTasks env rest
        { st with tasks := st.tasks ++ [{ url := script.src env, domain := "Unknown" }],
                  settled := st.settled ++ [st.tasks.length],
                  rejected := st.rejected.orElse (fun _ => some err) }

/-- One probe settles: the callback waiting for it resumes and pushes its
record.  A promise settles once, so an event for a callback that is not
waiting changes nothing. -/
def settle (env : Env) (st : RunState) (ev : ProbeEvent) : RunState :=
  match st.tasks[ev.task]? with
  | none => st
  | some task =>
    if ev.task ∈ st.settled then st
    else
      match completeTask env task ev.outcome st.console with
      | Except.ok (record, console) =>
        { st with settled := st.settled ++ [ev.task],
                  renderBlockingScripts := st.renderBlockingScripts ++ [record],
                  console := console }
      | Except.error err =>
        { st with settled := st.settled ++ [ev.task],
                  rejected := st.rejected.orElse (fun _ => some err) }

/-- Whether every promise of `promises` has settled. -/
def RunState.allSettled (st : RunState) : Bool :=
  (List.range st.tasks.length).all (fun i => decide (i ∈ st.settled))

/-- The state before any statement has run. -/
def RunState.empty : RunState :=
  { tasks := [], settled := [], renderBlockingScripts := [], console := [], probes := [],
    rejected := none }

/-- The whole script, lines 17-90, run against a document and a sequence of
probe completions.  The result is the state when the script has nothing
left to do with these events. -/
def analyze (env : Env) (doc : Document) (events : List ProbeEvent) : RunState :=
  let blocking := blockingScripts (scriptElements doc)
  if blocking.length = 0 then
    { RunState.empty with console := [ConsoleEvent.log noBlockingMessage] }
  else
    let st := events.foldl (settle env) (startTasks env blocking RunState.empty)
    -- `await Promise.all(promises)` resumes once every promise is fulfilled
    if st.allSettled ∧ st.rejected = none then
      { st with
        console := st.console ++
          [ConsoleEvent.log foundMessage, ConsoleEvent.table st.renderBlockingScripts] }
    else st

/-- What holds of the state between any two turns of the event loop: no
callback has rejected, a callback has run to its end at most once, and the
rows pushed so far are those of the settled callbacks, in the order in which
they settled. -/
structure RunState.Consistent (st : RunState) : Prop where
  rejected_none : st.rejected = none
  settled_nodup : st.settled.Nodup
  settled_lt : ∀ i ∈ st.settled, i < st.tasks.length
  rows_eq :
    st.renderBlockingScripts.map (fun r => ({ url := r.URL, domain := r.Domain } : Task)) =
      st.settled.map (fun i => st.tasks.getD i { url := none, domain := "" })

/-- A natural number that a Number holds exactly: at most 53 significant
binary digits, and below `2 ^ 1024`.  Every number below `2 ^ 53` is one. -/
def ExactDouble (n : Nat) : Prop :=
  n < 2 ^ 1024 ∧ ∃ m k : Nat, m < 2 ^ 53 ∧ n = m * 2 ^ k

/-- A header value `parseInt` reads an integer from: white space, an optional
sign, a run of decimal digits `ds`, and anything that does not go on with a
digit. -/
def IntegerHeader (value : String) (negative : Bool) (ds : List Char) : Prop :=
  ds ≠ [] ∧ (∀ c ∈ ds, c.isDigit = true) ∧
    ∃ ws sign rest : List Char,
      value.data = ws ++ sign ++ ds ++ rest ∧
      (∀ c ∈ ws, isStrWhiteSpaceChar c = true) ∧
      ((sign = [] ∧ negative = false) ∨ (sign = [ '+'] ∧ negative = false) ∨
        (sign = [ '-'] ∧ negative = true)) ∧
      (∀ c, rest.head? = some c → c.isDigit = false)

/-! ## An example page -/

/-- A small URL parser for the examples: the hostname of an `https://` URL
with a host, an error for anything else. -/
def exampleUrlHostname (url : String) : Except JSError String :=
  match url.data with
  | 'h' :: 't' :: 't' :: 'p' :: 's' :: ':' :: '/' :: '/' :: rest =>
    if (rest.takeWhile (fun c => c != '/' && c != '?' && c != '#' && c != ':')).isEmpty then
      Except.error { message := "Invalid URL" }
    else
      Except.ok (String.mk (rest.takeWhile (fun c => c != '/' && c != '?' && c != '#' && c != ':')))
  | _ => Except.error { message := "Invalid URL" }

/-- An example host: the page is `https://shop.example.com/`.  An empty
`src` resolves to the page URL, an `https://` one to itself, one that starts
with a slash resolves against the page origin, and any other against the
page directory. -/
def exampleEnv : Env :=
  { urlHostname := exampleUrlHostname
    locationHostname := "shop.example.com"
    resolveSrc := fun value =>
      match value.data with
      | [] => "https://shop.example.com/"
      | 'h' :: 't' :: 't' :: 'p' :: 's' :: ':' :: '/' :: '/' :: _ => value
      | '/' :: _ => "https://shop.example.com" ++ value
      | _ => "https://shop.example.com/" ++ value
    largeToString := fun _ _ => "1e+21" }

/-- A blocking HTML script element with the given `src` attribute. -/
def scriptTag (src : String) : Element :=
  { namespaceURI := htmlNamespace, localName := "script", attributes := [("src", src)] }

/-- An HTML element with the given name and attributes. -/
def htmlTag (localName : String) (attributes : List (String × String)) : Element :=
  { namespaceURI := htmlNamespace, localName := localName, attributes := attributes }

/-- The page of the scenario of the specification: a blocking CDN script, a
deferred one, and a blocking script with a relative source. -/
def exampleDoc : Document :=
  [ scriptTag "https://cdn.a.com/x.js",
    htmlTag "script" [("src", "https://cdn.a.com/y.js"), ("defer", "")],
    scriptTag "/local.js" ]

/-- A successful response declaring the given content length, if any. -/
def okResponse (contentLength : Option String) : Response :=
  { ok := true
    headersGet := fun name => if name = "content-length" then contentLength else none }

/-- The probes of the scenario, settling in reverse document order: the
probe of `/local.js` first (10240 bytes), then that of `x.js` (no length). -/
def reversedEvents : List ProbeEvent :=
  [ { task := 1, outcome := Except.ok (okResponse (some "10240")) },
    { task := 0, outcome := Except.ok (okResponse none) } ]

/-- A page without a blocking script: a deferred script, an async one, an
inline script and a paragraph. -/
def deferredDoc : Document :=
  [ htmlTag "script" [("src", "https://cdn.a.com/y.js"), ("defer", "")],
    htmlTag "script" [("async", "async"), ("src", "/z.js")],
    htmlTag "script" [],
    htmlTag "p" [("src", "x")] ]

/-- A page with elements of every kind: an image with a `src`, a script with
an empty `src` twice over, an inline script, an SVG script with a `src`, a
deferred script and a script on another host. -/
def mixedDoc : Document :=
  [ htmlTag "img" [("src", "/logo.png")],
    scriptTag "",
    htmlTag "script" [],
    { namespaceURI := svgNamespace, localName := "script", attributes := [("src", "/chart.js")] },
    htmlTag "script" [("src", "/late.js"), ("defer", "")],
    scriptTag "",
    scriptTag "https://cdn.a.com/x.js" ]

/-- Probe completions for `mixedDoc`: the fourth blocking script first, then
the second, the first (twice), a script that does not exist, and the third. -/
def mixedEvents : List ProbeEvent :=
  [ { task := 3, outcome := Except.ok (okResponse (some "2048")) },
    { task := 1, outcome := Except.error { message := "Failed to fetch" } },
    { task := 0, outcome := Except.ok (okResponse none) },
    { task := 0, outcome := Except.ok (okResponse (some "512")) },
    { task := 7, outcome := Except.ok (okResponse (some "1")) },
    { task := 2, outcome := Except.ok { ok := false, headersGet := fun _ => some "99" } } ]


/-! ## Facts about the built-ins -/

theorem splitChars_ne_nil (sep : Char) (cs : List Char) : splitChars sep cs ≠ [] := by
  cases cs with
  | nil => simp [splitChars]
  | cons c cs =>
    unfold splitChars
    split
    · simp
    · split <;> simp

theorem splitChars_length_pos (sep : Char) (cs : List Char) :
    1 ≤ (splitChars sep cs).length := by
  have h := splitChars_ne_nil sep cs
  cases hs : splitChars sep cs with
  | nil => exact absurd hs h
  | cons p ps => simp

/-- A character list without a cut is its own single piece. -/
theorem splitChars_single (sep : Char) :
    ∀ cs : List Char, (splitChars sep cs).length = 1 → splitChars sep cs = [cs] := by
  intro cs
  induction cs with
  | nil => intro _; rfl
  | cons c cs ih =>
    intro hlen
    unfold splitChars at hlen ⊢
    by_cases hc : c = sep
    · have hnil : splitChars sep cs = [] := by simpa [hc] using hlen
      exact absurd hnil (splitChars_ne_nil sep cs)
    · simp only [hc, if_false] at hlen ⊢
      cases hs : splitChars sep cs with
      | nil => exact absurd hs (splitChars_ne_nil sep cs)
      | cons p ps =>
        rw [hs] at hlen ih
        simp only [List.length_cons] at hlen
        have hps : ps = [] := by
          cases ps with
          | nil => rfl
          | cons _ _ => simp at hlen
        subst hps
        have hp := ih rfl
        simp only [List.cons.injEq, and_true] at hp
        simp [hp]

theorem jsSplit_length_pos (sep : Char) (s : String) : 1 ≤ (jsSplit sep s).length := by
  simp [jsSplit, splitChars_length_pos]

theorem jsSplit_single (sep : Char) (s : String) (h : (jsSplit sep s).length = 1) :
    jsSplit sep s = [s] := by
  have h1 : (splitChars sep s.data).length = 1 := by simpa [jsSplit] using h
  simp [jsSplit, splitChars_single sep s.data h1]

/-- A list with at least two entries ends in two entries. -/
theorem exists_last_two {α : Type} (xs : List α) (h : 1 < xs.length) :
    ∃ pre a b, xs = pre ++ [a, b] := by
  induction xs with
  | nil => simp at h
  | cons x xs ih =>
    cases xs with
    | nil => simp at h
    | cons y ys =>
      cases ys with
      | nil => exact ⟨[], x, y, rfl⟩
      | cons z zs =>
        obtain ⟨pre, a, b, hab⟩ := ih (by simp)
        exact ⟨x :: pre, a, b, by rw [hab]; rfl⟩

theorem jsSlice_last_two {α : Type} (pre : List α) (a b : α) :
    jsSlice (-2) (pre ++ [a, b]) = [a, b] := by
  have hk : (max (((pre ++ [a, b]).length : Int) + -2) 0).toNat = pre.length := by
    simp only [List.length_append, List.length_cons, List.length_nil]
    omega
  simp only [jsSlice]
  rw [if_pos (by decide), hk]
  simp

theorem jsSlice_single {α : Type} (a : α) : jsSlice (-2) [a] = [a] := by
  simp [jsSlice]

theorem jsJoin_pair (sep a b : String) : jsJoin sep [a, b] = a ++ sep ++ b := rfl

theorem jsJoin_single (sep a : String) : jsJoin sep [a] = a := rfl

/-- The two-label rule of lines 59-65, label by label. -/
theorem domainOfHostname_rule (h : String) :
    (1 < (jsSplit '.' h).length →
        ∃ pre a b, jsSplit '.' h = pre ++ [a, b] ∧ domainOfHostname h = a ++ "." ++ b) ∧
      ((jsSplit '.' h).length = 1 → domainOfHostname h = h) := by
  constructor
  · intro hlen
    obtain ⟨pre, a, b, hab⟩ := exists_last_two _ hlen
    refine ⟨pre, a, b, hab, ?_⟩
    simp only [domainOfHostname]
    rw [if_pos hlen, hab, jsSlice_last_two, jsJoin_pair]
  · intro hlen
    simp only [domainOfHostname]
    rw [if_neg (by omega)]

/-- Line 68 computes what lines 59-65 compute. -/
theorem fallback_eq_rule (p : String) :
    jsJoin "." (jsSlice (-2) (jsSplit '.' p)) = domainOfHostname p := by
  simp only [domainOfHostname]
  by_cases hlen : (jsSplit '.' p).length > 1
  · rw [if_pos hlen]
  · rw [if_neg hlen]
    have h1 : (jsSplit '.' p).length = 1 := by
      have := jsSplit_length_pos '.' p
      omega
    rw [jsSplit_single '.' p h1, jsSlice_single, jsJoin_single]


/-! ## Facts about the number built-ins -/

theorem isDigit_bounds (c : Char) (h : c.isDigit = true) : 48 ≤ c.toNat ∧ c.toNat ≤ 57 := by
  simp only [Char.isDigit, Bool.and_eq_true, decide_eq_true_eq] at h
  obtain ⟨h1, h2⟩ := h
  have h1' : (48 : UInt32).toNat ≤ c.val.toNat := h1
  have h2' : c.val.toNat ≤ (57 : UInt32).toNat := h2
  exact ⟨h1', h2'⟩

theorem not_whiteSpace_of_isDigit (c : Char) (h : c.isDigit = true) :
    isStrWhiteSpaceChar c = false := by
  obtain ⟨h1, h2⟩ := isDigit_bounds c h
  simp only [isStrWhiteSpaceChar, Bool.or_eq_false_iff, Bool.and_eq_false_imp, decide_eq_false_iff_not, decide_eq_true_eq]
  omega

theorem readSign_of_isDigit (c : Char) (rest : List Char) (h : c.isDigit = true) :
    readSign (c :: rest) = (false, c :: rest) := by
  obtain ⟨h1, h2⟩ := isDigit_bounds c h
  unfold readSign
  split
  · rename_i heq
    simp only [List.cons.injEq] at heq
    rw [heq.1] at h1
    exact absurd h1 (by decide)
  · rename_i heq
    simp only [List.cons.injEq] at heq
    rw [heq.1] at h1
    exact absurd h1 (by decide)
  · rfl

theorem roundToDouble_of_lt (n : Nat) (h : n < 2 ^ 53) : roundToDouble n = some n := by
  unfold roundToDouble
  rw [if_pos h]

theorem toDigitsCore_eq : ∀ (n fuel : Nat) (ds : List Char), n < fuel →
    Nat.toDigitsCore 10 fuel n ds = Nat.toDigits 10 n ++ ds := by
  intro n
  induction n using Nat.strong_induction_on with
  | _ n ih =>
    intro fuel ds hfuel
    cases fuel with
    | zero => omega
    | succ f =>
      by_cases h0 : n / 10 = 0
      · simp [Nat.toDigits, Nat.toDigitsCore, h0]
      · have hlt : n / 10 < n := by omega
        have e1 := ih (n / 10) hlt f (Nat.digitChar (n % 10) :: ds) (by omega)
        have e2 := ih (n / 10) hlt n [Nat.digitChar (n % 10)] hlt
        simp only [Nat.toDigits, Nat.toDigitsCore, h0, if_false] at e1 e2 ⊢
        rw [e1, e2]
        simp

theorem toDigits_small (n : Nat) (h : n < 10) : Nat.toDigits 10 n = [Nat.digitChar n] := by
  have h0 : n / 10 = 0 := by omega
  have hm : n % 10 = n := by omega
  simp [Nat.toDigits, Nat.toDigitsCore, h0, hm]

theorem toDigits_step (n : Nat) (h : 10 ≤ n) :
    Nat.toDigits 10 n = Nat.toDigits 10 (n / 10) ++ [Nat.digitChar (n % 10)] := by
  have h0 : n / 10 ≠ 0 := by omega
  have e := toDigitsCore_eq (n / 10) n [Nat.digitChar (n % 10)] (by omega)
  simp only [Nat.toDigits, Nat.toDigitsCore, h0, if_false] at e ⊢
  exact e

theorem toDigits_length_pos (n : Nat) : 1 ≤ (Nat.toDigits 10 n).length := by
  by_cases h : n < 10
  · simp [toDigits_small n h]
  · rw [toDigits_step n (by omega)]
    simp

/-- The digits of `q` with a point before the last two, as `toFixed(2)` lays
them out. -/
theorem fixed2_layout (q : Nat) :
    (let m : List Char := if q = 0 then [ '0'] else Nat.toDigits 10 q
     let m := if m.length ≤ 2 then List.replicate (2 + 1 - m.length) '0' ++ m else m
     m.take (m.length - 2) ++ [ '.'] ++ m.drop (m.length - 2)) =
      Nat.toDigits 10 (q / 100) ++
        [ '.', Nat.digitChar (q / 10 % 10), Nat.digitChar (q % 10)] := by
  have hm : (if q = 0 then [ '0'] else Nat.toDigits 10 q) = Nat.toDigits 10 q := by
    by_cases h : q = 0
    · subst h; rfl
    · rw [if_neg h]
  simp only [hm]
  by_cases h10 : q < 10
  · have e0 : q / 100 = 0 := by omega
    have e1 : q / 10 % 10 = 0 := by omega
    have e2 : q % 10 = q := by omega
    rw [toDigits_small q h10, e0, e1, e2]
    rfl
  · by_cases h100 : q < 100
    · have e0 : q / 100 = 0 := by omega
      have e1 : q / 10 % 10 = q / 10 := by omega
      rw [toDigits_step q (by omega), toDigits_small (q / 10) (by omega), e0, e1]
      rfl
    · have e0 : q / 10 / 10 = q / 100 := by omega
      have hlen := toDigits_length_pos (q / 100)
      rw [toDigits_step q (by omega), toDigits_step (q / 10) (by omega), e0]
      have hnot : ¬ (Nat.toDigits 10 (q / 100) ++ [Nat.digitChar (q / 10 % 10)] ++
          [Nat.digitChar (q % 10)]).length ≤ 2 := by
        simp only [List.length_append, List.length_cons, List.length_nil]
        omega
      simp only [if_neg hnot]
      have hl : (Nat.toDigits 10 (q / 100) ++ [Nat.digitChar (q / 10 % 10)] ++
          [Nat.digitChar (q % 10)]).length - 2 = (Nat.toDigits 10 (q / 100)).length := by
        simp only [List.length_append, List.length_cons, List.length_nil]
        omega
      rw [hl]
      simp only [List.append_assoc, List.take_left, List.drop_left]
      simp

theorem bitLengthAux_lt : ∀ fuel n : Nat, n ≤ fuel → n < 2 ^ bitLengthAux fuel n := by
  intro fuel
  induction fuel with
  | zero =>
    intro n hn
    have h0 : n = 0 := by omega
    subst h0
    simp [bitLengthAux]
  | succ f ih =>
    intro n hn
    by_cases h0 : n = 0
    · subst h0
      simp [bitLengthAux]
    · have hrec := ih (n / 2) (by omega)
      simp only [bitLengthAux, if_neg h0]
      rw [Nat.pow_succ]
      omega

theorem bitLengthAux_le : ∀ fuel n b : Nat, n < 2 ^ b → bitLengthAux fuel n ≤ b := by
  intro fuel
  induction fuel with
  | zero => intro n b _; simp [bitLengthAux]
  | succ f ih =>
    intro n b hn
    by_cases h0 : n = 0
    · simp [bitLengthAux, h0]
    · cases b with
      | zero =>
        simp at hn
        exact absurd hn h0
      | succ b =>
        rw [Nat.pow_succ] at hn
        have hrec := ih (n / 2) b (by omega)
        simp only [bitLengthAux, if_neg h0]
        omega

theorem lt_two_pow_bitLength (n : Nat) : n < 2 ^ bitLength n :=
  bitLengthAux_lt n n (Nat.le_refl n)

theorem bitLength_le (n b : Nat) (h : n < 2 ^ b) : bitLength n ≤ b :=
  bitLengthAux_le n n b h

theorem exactDouble_of_lt (n : Nat) (h : n < 2 ^ 53) : ExactDouble n := by
  refine ⟨?_, n, 0, h, by simp⟩
  have hmono : ∀ a b : Nat, a < b → 2 ^ a < 2 ^ b :=
    fun a b hab => Nat.pow_lt_pow_right (by decide) hab
  exact Nat.lt_trans h (hmono 53 1024 (by decide))

/-- A number that a Number holds exactly is its own rounding. -/
theorem roundToDouble_exact (n : Nat) (h : ExactDouble n) : roundToDouble n = some n := by
  obtain ⟨hbig, m, k, hm, hn⟩ := h
  by_cases hlt : n < 2 ^ 53
  · exact roundToDouble_of_lt n hlt
  · have hnk : n < 2 ^ (53 + k) := by
      rw [hn, Nat.pow_add]
      exact Nat.mul_lt_mul_of_pos_right hm (Nat.two_pow_pos _)
    have hb1 : bitLength n ≤ 53 + k := bitLength_le n _ hnk
    have hb2 : 54 ≤ bitLength n := by
      by_contra hc
      have h1 := lt_two_pow_bitLength n
      have h2 : 2 ^ bitLength n ≤ 2 ^ 53 := Nat.pow_le_pow_right (by decide) (by omega)
      omega
    have hsh : bitLength n - 53 ≤ k := by omega
    have hdvd : 2 ^ (bitLength n - 53) ∣ n := by
      have hd := Dvd.dvd.mul_left (Nat.pow_dvd_pow 2 hsh) m
      rw [← hn] at hd
      exact hd
    have hmod : n % 2 ^ (bitLength n - 53) = 0 := Nat.mod_eq_zero_of_dvd hdvd
    have hdiv : n / 2 ^ (bitLength n - 53) * 2 ^ (bitLength n - 53) = n :=
      Nat.div_mul_cancel hdvd
    have hhalf : 0 < 2 ^ (bitLength n - 53 - 1) := Nat.two_pow_pos _
    have hcond : ¬ (2 ^ (bitLength n - 53 - 1) < n % 2 ^ (bitLength n - 53) ∨
        (n % 2 ^ (bitLength n - 53) = 2 ^ (bitLength n - 53 - 1) ∧
          n / 2 ^ (bitLength n - 53) % 2 = 1)) := by
      rw [hmod]
      omega
    have hfit : bitLength n ≤ 1024 := bitLength_le n 1024 hbig
    unfold roundToDouble
    rw [if_neg hlt]
    simp only [if_neg hcond, hdiv, if_pos hfit]

/-- What rounding gives is a number that a Number holds exactly. -/
theorem exactDouble_of_roundToDouble (n v : Nat) (h : roundToDouble n = some v) :
    ExactDouble v := by
  by_cases hlt : n < 2 ^ 53
  · rw [roundToDouble_of_lt n hlt] at h
    have hv : n = v := Option.some.inj h
    rw [← hv]
    exact exactDouble_of_lt n hlt
  · have hb2 : 54 ≤ bitLength n := by
      by_contra hc
      have h1 := lt_two_pow_bitLength n
      have h2 : 2 ^ bitLength n ≤ 2 ^ 53 := Nat.pow_le_pow_right (by decide) (by omega)
      omega
    have hq : n / 2 ^ (bitLength n - 53) < 2 ^ 53 := by
      rw [Nat.div_lt_iff_lt_mul (Nat.two_pow_pos _), ← Nat.pow_add]
      have h1 := lt_two_pow_bitLength n
      have he : 53 + (bitLength n - 53) = bitLength n := by omega
      rw [he]
      exact h1
    have hshape : ∀ q : Nat, q ≤ 2 ^ 53 →
        (if bitLength (q * 2 ^ (bitLength n - 53)) ≤ 1024 then
          some (q * 2 ^ (bitLength n - 53)) else none) = some v → ExactDouble v := by
      intro q hq1 hq2
      by_cases hfit : bitLength (q * 2 ^ (bitLength n - 53)) ≤ 1024
      · rw [if_pos hfit] at hq2
        have hv := Option.some.inj hq2
        rw [← hv]
        refine ⟨?_, ?_⟩
        · have h1 := lt_two_pow_bitLength (q * 2 ^ (bitLength n - 53))
          have hmono : ∀ a b : Nat, a ≤ b → 2 ^ a ≤ 2 ^ b :=
            fun a b hab => Nat.pow_le_pow_right (by decide) hab
          have h2 : 2 ^ bitLength (q * 2 ^ (bitLength n - 53)) ≤ 2 ^ 1024 :=
            hmono _ 1024 hfit
          exact Nat.lt_of_lt_of_le h1 h2
        · by_cases hq3 : q < 2 ^ 53
          · exact ⟨q, _, hq3, rfl⟩
          · have hq4 : q = 2 ^ 53 := by omega
            refine ⟨1, 53 + (bitLength n - 53), by decide, ?_⟩
            rw [hq4, Nat.pow_add, Nat.one_mul]
      · rw [if_neg hfit] at hq2
        exact Option.noConfusion hq2
    unfold roundToDouble at h
    rw [if_neg hlt] at h
    by_cases hcond : 2 ^ (bitLength n - 53 - 1) < n % 2 ^ (bitLength n - 53) ∨
        (n % 2 ^ (bitLength n - 53) = 2 ^ (bitLength n - 53 - 1) ∧
          n / 2 ^ (bitLength n - 53) % 2 = 1)
    · simp only [if_pos hcond] at h
      exact hshape _ (by omega) h
    · simp only [if_neg hcond] at h
      exact hshape _ (by omega) h

theorem decimalValue_snoc (ds : List Char) (c : Char) :
    decimalValue (ds ++ [c]) = 10 * decimalValue ds + (c.toNat - 48) := by
  simp [decimalValue, List.foldl_append]

theorem dropWhile_prefix {α : Type} (p : α → Bool) :
    ∀ (ws tail : List α), (∀ c ∈ ws, p c = true) → (∀ c, tail.head? = some c → p c = false) →
      (ws ++ tail).dropWhile p = tail := by
  intro ws
  induction ws with
  | nil =>
    intro tail _ ht
    cases tail with
    | nil => rfl
    | cons c cs => simp [List.dropWhile, ht c rfl]
  | cons w ws ih =>
    intro tail hw ht
    have h1 : p w = true := hw w (by simp)
    simp only [List.cons_append, List.dropWhile_cons, h1, if_true]
    exact ih tail (fun c hc => hw c (by simp [hc])) ht

theorem takeWhile_prefix {α : Type} (p : α → Bool) :
    ∀ (ds rest : List α), (∀ c ∈ ds, p c = true) → (∀ c, rest.head? = some c → p c = false) →
      (ds ++ rest).takeWhile p = ds := by
  intro ds
  induction ds with
  | nil =>
    intro rest _ hr
    cases rest with
    | nil => rfl
    | cons c cs => simp [List.takeWhile, hr c rfl]
  | cons d ds ih =>
    intro rest hd hr
    have h1 : p d = true := hd d (by simp)
    simp only [List.cons_append, List.takeWhile_cons, h1, if_true]
    rw [ih rest (fun c hc => hd c (by simp [hc])) hr]

/-- What `parseInt` gives on a header it reads an integer from. -/
theorem parseInt_integerHeader (value : String) (negative : Bool) (ds : List Char)
    (h : IntegerHeader value negative ds) :
    parseInt value =
      match roundToDouble (decimalValue ds) with
      | some v => JSNumber.finite (if negative then -(v : Int) else (v : Int)) 0
      | none => JSNumber.infinity negative := by
  obtain ⟨hne, hds, ws, sign, rest, hval, hws, hsign, hrest⟩ := h
  obtain ⟨d, ds', hdd⟩ : ∃ d ds', ds = d :: ds' := by
    cases ds with
    | nil => exact absurd rfl hne
    | cons d ds' => exact ⟨d, ds', rfl⟩
  have hd : d.isDigit = true := hds d (by simp [hdd])
  have hdrop : (ws ++ sign ++ ds ++ rest).dropWhile isStrWhiteSpaceChar =
      sign ++ (ds ++ rest) := by
    rw [List.append_assoc, List.append_assoc]
    apply dropWhile_prefix _ ws _ hws
    intro c hc
    rcases hsign with ⟨hs, _⟩ | ⟨hs, _⟩ | ⟨hs, _⟩
    · rw [hs, hdd] at hc
      simp at hc
      rw [← hc]
      exact not_whiteSpace_of_isDigit d hd
    · rw [hs] at hc
      simp at hc
      rw [← hc]
      decide
    · rw [hs] at hc
      simp at hc
      rw [← hc]
      decide
  have hread : readSign (sign ++ (ds ++ rest)) = (negative, ds ++ rest) := by
    rcases hsign with ⟨hs, hn⟩ | ⟨hs, hn⟩ | ⟨hs, hn⟩
    · rw [hs, hn, hdd]
      exact readSign_of_isDigit d (ds' ++ rest) hd
    · rw [hs, hn]
      rfl
    · rw [hs, hn]
      rfl
  have htake : (ds ++ rest).takeWhile Char.isDigit = ds := takeWhile_prefix _ ds rest hds hrest
  have hnonempty : ds.isEmpty = false := by rw [hdd]; rfl
  simp only [parseInt, hval, hdrop, hread, htake, hnonempty]
  rfl

/-- On a header `parseInt` reads the integer `z` from, `parseInt` gives `z`
exactly when a Number holds `z` exactly. -/
theorem parseInt_eq_iff_exact (value : String) (negative : Bool) (ds : List Char)
    (h : IntegerHeader value negative ds) :
    parseInt value =
        JSNumber.finite
          (if negative then -(decimalValue ds : Int) else (decimalValue ds : Int)) 0 ↔
      ExactDouble (decimalValue ds) := by
  rw [parseInt_integerHeader value negative ds h]
  constructor
  · intro hp
    cases hr : roundToDouble (decimalValue ds) with
    | none =>
      rw [hr] at hp
      exact JSNumber.noConfusion hp
    | some v =>
      rw [hr] at hp
      simp only [JSNumber.finite.injEq, and_true] at hp
      have hv : v = decimalValue ds := by
        cases negative
        · simpa using hp
        · simp only [if_true] at hp
          omega
      rw [← hv]
      exact exactDouble_of_roundToDouble _ v hr
  · intro he
    rw [roundToDouble_exact _ he]

/-! ## The selector -/

theorem hasAttribute_of_mem (e : Element) (name value : String)
    (h : (name, value) ∈ e.attributes) : e.hasAttribute name = true := by
  simp only [Element.hasAttribute, List.any_eq_true]
  exact ⟨(name, value), h, by simp⟩

/-- C1. The blocking scripts are the candidates that have neither an `async`
nor a `defer` attribute, whatever the value of the attribute: they form a
subsequence of the candidates (document order is kept), a candidate is kept
if and only if both attributes are absent, and a kept candidate occurs as
often as among the candidates. -/
theorem blockingScripts_selector (candidates : List Element) :
    List.Sublist (blockingScripts candidates) candidates ∧
      (∀ e, e ∈ blockingScripts candidates ↔
        e ∈ candidates ∧ e.hasAttribute "async" = false ∧ e.hasAttribute "defer" = false) ∧
      (∀ e, e.hasAttribute "async" = false → e.hasAttribute "defer" = false →
        (blockingScripts candidates).count e = candidates.count e) ∧
      (∀ e value, ("async", value) ∈ e.attributes ∨ ("defer", value) ∈ e.attributes →
        e ∉ blockingScripts candidates) := by
  have hmem : ∀ e, e ∈ blockingScripts candidates ↔
      e ∈ candidates ∧ e.hasAttribute "async" = false ∧ e.hasAttribute "defer" = false := by
    intro e
    simp [blockingScripts, List.mem_filter]
  refine ⟨List.filter_sublist _, hmem, ?_, ?_⟩
  · intro e ha hd
    unfold blockingScripts
    exact List.count_filter (by simp [ha, hd])
  · intro e value h hin
    obtain ⟨_, ha, hd⟩ := (hmem e).mp hin
    rcases h with h | h
    · rw [hasAttribute_of_mem e "async" value h] at ha
      exact Bool.noConfusion ha
    · rw [hasAttribute_of_mem e "defer" value h] at hd
      exact Bool.noConfusion hd

/-- C1, on the page of the scenario: the deferred script is dropped and the
other two keep their order. -/
theorem blockingScripts_selector_witness :
    (List.Sublist (blockingScripts (scriptElements exampleDoc)) (scriptElements exampleDoc) ∧
      (∀ e, e ∈ blockingScripts (scriptElements exampleDoc) ↔
        e ∈ scriptElements exampleDoc ∧
          e.hasAttribute "async" = false ∧ e.hasAttribute "defer" = false) ∧
      (∀ e, e.hasAttribute "async" = false → e.hasAttribute "defer" = false →
        (blockingScripts (scriptElements exampleDoc)).count e =
          (scriptElements exampleDoc).count e) ∧
      (∀ e value, ("async", value) ∈ e.attributes ∨ ("defer", value) ∈ e.attributes →
        e ∉ blockingScripts (scriptElements exampleDoc))) ∧
      blockingScripts (scriptElements exampleDoc) =
        [scriptTag "https://cdn.a.com/x.js", scriptTag "/local.js"] :=
  ⟨blockingScripts_selector (scriptElements exampleDoc), by decide⟩

/-! ## The domain -/

/-- C3. When the URL parses with hostname `h`, the domain is the last two
labels of `h` joined by a dot if `h` has more than one label, and `h` itself
if it has exactly one; a hostname always has at least one label. -/
theorem domain_rule (env : Env) (url h : String)
    (hparse : env.urlHostname url = Except.ok h) :
    (1 < (jsSplit '.' h).length →
        ∃ pre a b, jsSplit '.' h = pre ++ [a, b] ∧
          deriveDomain env url = Except.ok (a ++ "." ++ b)) ∧
      ((jsSplit '.' h).length = 1 → deriveDomain env url = Except.ok h) ∧
      1 ≤ (jsSplit '.' h).length := by
  have hd : deriveDomain env url = Except.ok (domainOfHostname h) := by
    simp only [deriveDomain, hparse]
  refine ⟨?_, ?_, jsSplit_length_pos _ _⟩
  · intro hlen
    obtain ⟨pre, a, b, hab, hdom⟩ := (domainOfHostname_rule h).1 hlen
    exact ⟨pre, a, b, hab, by rw [hd, hdom]⟩
  · intro hlen
    rw [hd, (domainOfHostname_rule h).2 hlen]

/-- C3, on the three hostnames of the specification. -/
theorem domain_rule_witness :
    exampleEnv.urlHostname "https://a.b.example.com/x.js" = Except.ok "a.b.example.com" ∧
      ((1 < (jsSplit '.' "a.b.example.com").length →
          ∃ pre a b, jsSplit '.' "a.b.example.com" = pre ++ [a, b] ∧
            deriveDomain exampleEnv "https://a.b.example.com/x.js" =
              Except.ok (a ++ "." ++ b)) ∧
        ((jsSplit '.' "a.b.example.com").length = 1 →
          deriveDomain exampleEnv "https://a.b.example.com/x.js" =
            Except.ok "a.b.example.com") ∧
        1 ≤ (jsSplit '.' "a.b.example.com").length) ∧
      jsSplit '.' "a.b.example.com" = ["a", "b"] ++ ["example", "com"] ∧
      deriveDomain exampleEnv "https://a.b.example.com/x.js" = Except.ok "example.com" ∧
      deriveDomain exampleEnv "https://localhost/x.js" = Except.ok "localhost" ∧
      deriveDomain exampleEnv "https://foo.co.uk/x.js" = Except.ok "co.uk" :=
  ⟨rfl, domain_rule exampleEnv "https://a.b.example.com/x.js" "a.b.example.com" rfl,
    by decide, rfl, rfl, rfl⟩

/-- C8. When the URL does not parse, the domain is what the rule for parsed
URLs gives on the page hostname `p`: the last two labels of `p` joined by a
dot, or `p` itself when it has one label; it is the domain of any URL that
parses with hostname `p`. -/
theorem fallback_domain_agrees (env : Env) (url : String) (err : JSError)
    (hfail : env.urlHostname url = Except.error err) :
    deriveDomain env url = Except.ok (domainOfHostname env.locationHostname) ∧
      (∀ (env2 : Env) (url2 : String),
        env2.urlHostname url2 = Except.ok env.locationHostname →
          deriveDomain env url = deriveDomain env2 url2) ∧
      (1 < (jsSplit '.' env.locationHostname).length →
        ∃ pre a b, jsSplit '.' env.locationHostname = pre ++ [a, b] ∧
          deriveDomain env url = Except.ok (a ++ "." ++ b)) ∧
      ((jsSplit '.' env.locationHostname).length = 1 →
        deriveDomain env url = Except.ok env.locationHostname) := by
  have hd : deriveDomain env url = Except.ok (domainOfHostname env.locationHostname) := by
    simp only [deriveDomain, hfail, fallbackDomain, fallback_eq_rule]
  refine ⟨hd, ?_, ?_, ?_⟩
  · intro env2 url2 h2
    rw [hd]
    simp only [deriveDomain, h2]
  · intro hlen
    obtain ⟨pre, a, b, hab, hdom⟩ := (domainOfHostname_rule env.locationHostname).1 hlen
    exact ⟨pre, a, b, hab, by rw [hd, hdom]⟩
  · intro hlen
    rw [hd, (domainOfHostname_rule env.locationHostname).2 hlen]

/-- C8, on the page `shop.example.com` with a source the parser rejects. -/
theorem fallback_domain_agrees_witness :
    exampleEnv.urlHostname "local.js" = Except.error { message := "Invalid URL" } ∧
      (deriveDomain exampleEnv "local.js" =
          Except.ok (domainOfHostname exampleEnv.locationHostname) ∧
        (∀ (env2 : Env) (url2 : String),
          env2.urlHostname url2 = Except.ok exampleEnv.locationHostname →
            deriveDomain exampleEnv "local.js" = deriveDomain env2 url2) ∧
        (1 < (jsSplit '.' exampleEnv.locationHostname).length →
          ∃ pre a b, jsSplit '.' exampleEnv.locationHostname = pre ++ [a, b] ∧
            deriveDomain exampleEnv "local.js" = Except.ok (a ++ "." ++ b)) ∧
        ((jsSplit '.' exampleEnv.locationHostname).length = 1 →
          deriveDomain exampleEnv "local.js" = Except.ok exampleEnv.locationHostname)) ∧
      exampleEnv.locationHostname = "shop.example.com" ∧
      deriveDomain exampleEnv "local.js" = Except.ok "example.com" :=
  ⟨rfl, fallback_domain_agrees exampleEnv "local.js" { message := "Invalid URL" } rfl,
    rfl, rfl⟩


/-! ## The size probe and the size column -/

/-- The call `x.toFixed(2)` on a non-negative value `a / 2 ^ e` below
`10 ^ 21`: the digits of the rounded number of hundredths, with a point
before the last two. -/
theorem toFixed_two (largeToString : Nat → Nat → String) (a e : Nat)
    (h : a < 10 ^ 21 * 2 ^ e) :
    (JSNumber.finite (a : Int) e).toFixed largeToString 2 =
      String.mk (Nat.toDigits 10 ((2 * a * 10 ^ 2 + 2 ^ e) / (2 * 2 ^ e) / 100) ++
        [ '.', Nat.digitChar ((2 * a * 10 ^ 2 + 2 ^ e) / (2 * 2 ^ e) / 10 % 10),
          Nat.digitChar ((2 * a * 10 ^ 2 + 2 ^ e) / (2 * 2 ^ e) % 10)]) := by
  have hneg : ¬ ((a : Int) < 0) := by omega
  have hbig : ¬ (10 ^ 21 * 2 ^ e ≤ a) := by omega
  have hlay := fixed2_layout ((2 * a * 10 ^ 2 + 2 ^ e) / (2 * 2 ^ e))
  simp only [JSNumber.toFixed, if_neg hneg, Int.natAbs_ofNat, if_neg hbig]
  simp only [ne_eq, OfNat.ofNat_ne_zero, not_false_eq_true, if_true]
  rw [hlay]
  apply String.ext
  simp

theorem getFileSize_number (fetch : String → Except JSError Response) (url : String)
    (console : List ConsoleEvent) (response : Response) (contentLength : String)
    (hf : fetch url = Except.ok response) (hok : response.ok = true)
    (hh : response.headersGet "content-length" = some contentLength)
    (hne : contentLength ≠ "") :
    getFileSize fetch url console =
      Except.ok (SizeValue.number (parseInt contentLength), console) := by
  simp only [getFileSize, hf, hok, hh, if_true]
  rw [if_pos hne]

theorem integerHeader_ne_empty (value : String) (negative : Bool) (ds : List Char)
    (h : IntegerHeader value negative ds) : value ≠ "" := by
  obtain ⟨hne, _, ws, sign, rest, hval, _, _, _⟩ := h
  intro he
  rw [he] at hval
  have hnil : ws ++ sign ++ ds ++ rest = [] := hval.symm
  simp only [List.append_eq_nil] at hnil
  exact hne hnil.1.2

/-- C4, as the code has it.  The probe never throws.  With a successful
response whose `content-length` spells an integer (after white space and an
optional sign, before anything that is not a digit), the probe gives a
Number, and that Number is the integer spelled exactly when a Number holds
the integer exactly, as it does every integer below `2 ^ 53`; the integer
spelled is read digit by digit in base ten, and white space is the white
space and line terminators of ECMA-262.  With a successful response
without the header the probe gives `N/A`; with a rejected request or an
unsuccessful response it gives `Unavailable`. -/
theorem getFileSize_contract (fetch : String → Except JSError Response) (url : String)
    (console : List ConsoleEvent) :
    (∀ response contentLength negative ds, fetch url = Except.ok response →
        response.ok = true →
        response.headersGet "content-length" = some contentLength →
        IntegerHeader contentLength negative ds →
        (getFileSize fetch url console =
            Except.ok (SizeValue.number (JSNumber.finite
              (if negative then -(decimalValue ds : Int) else (decimalValue ds : Int)) 0),
              console) ↔
          ExactDouble (decimalValue ds)) ∧
        ∃ x, getFileSize fetch url console = Except.ok (SizeValue.number x, console)) ∧
      (decimalValue [] = 0 ∧
        ∀ ds c, decimalValue (ds ++ [c]) = 10 * decimalValue ds + (c.toNat - 48)) ∧
      (∀ n, n < 2 ^ 53 → ExactDouble n) ∧
      (∀ response, fetch url = Except.ok response → response.ok = true →
        response.headersGet "content-length" = none →
        getFileSize fetch url console = Except.ok (SizeValue.string "N/A", console)) ∧
      (∀ err, fetch url = Except.error err →
        ∃ c, getFileSize fetch url console = Except.ok (SizeValue.string "Unavailable", c)) ∧
      (∀ response, fetch url = Except.ok response → response.ok = false →
        getFileSize fetch url console = Except.ok (SizeValue.string "Unavailable", console)) ∧
      (∃ r, getFileSize fetch url console = Except.ok r) ∧
      (∀ c : Char, isStrWhiteSpaceChar c = true ↔
        c.toNat ∈ [0x09, 0x0A, 0x0B, 0x0C, 0x0D, 0x20, 0xA0, 0x1680, 0x2028, 0x2029, 0x202F,
            0x205F, 0x3000, 0xFEFF] ∨
          (0x2000 ≤ c.toNat ∧ c.toNat ≤ 0x200A)) := by
  refine ⟨?_, ⟨rfl, decimalValue_snoc⟩, exactDouble_of_lt, ?_, ?_, ?_, ?_, ?_⟩
  · intro response contentLength negative ds hf hok hh hint
    have hg := getFileSize_number fetch url console response contentLength hf hok hh
      (integerHeader_ne_empty contentLength negative ds hint)
    refine ⟨?_, _, hg⟩
    rw [hg, ← parseInt_eq_iff_exact contentLength negative ds hint]
    constructor
    · intro h
      have h1 := Except.ok.inj h
      have h2 := (Prod.mk.inj h1).1
      exact SizeValue.number.inj h2
    · intro h
      rw [h]
  · intro response hf hok hh
    simp only [getFileSize, hf, hok, hh, if_true]
  · intro err hf
    simp only [getFileSize, hf]
    exact ⟨_, rfl⟩
  · intro response hf hok
    simp only [getFileSize, hf, hok]
    rfl
  · cases hf : fetch url with
    | error err =>
      simp only [getFileSize, hf]
      exact ⟨_, rfl⟩
    | ok response =>
      cases hok : response.ok with
      | false =>
        simp only [getFileSize, hf, hok]
        exact ⟨_, rfl⟩
      | true =>
        cases hh : response.headersGet "content-length" with
        | none =>
          simp only [getFileSize, hf, hok, hh, if_true]
          exact ⟨_, rfl⟩
        | some contentLength =>
          simp only [getFileSize, hf, hok, hh, if_true]
          by_cases hne : contentLength ≠ ""
          · rw [if_pos hne]
            exact ⟨_, rfl⟩
          · rw [if_neg hne]
            exact ⟨_, rfl⟩
  · intro c
    simp only [isStrWhiteSpaceChar, Bool.or_eq_true, Bool.and_eq_true, decide_eq_true_eq,
      List.mem_cons, List.mem_singleton, List.not_mem_nil, or_false]
    omega

/-- C4, on a response that declares ` -12 bytes`, one without the header and
an unsuccessful one. -/
theorem getFileSize_contract_witness :
    IntegerHeader " -12 bytes" true [ '1', '2'] ∧
      decimalValue [ '1', '2'] = 12 ∧
      ExactDouble 12 ∧
      getFileSize (fun _ => Except.ok (okResponse (some " -12 bytes"))) "https://cdn.a.com/x.js"
          [] =
        Except.ok (SizeValue.number (JSNumber.finite
          (if true then -(decimalValue [ '1', '2'] : Int) else (decimalValue [ '1', '2'] : Int))
          0), []) ∧
      getFileSize (fun _ => Except.ok (okResponse (some "+2048"))) "https://cdn.a.com/x.js" [] =
        Except.ok (SizeValue.number (JSNumber.finite 2048 0), []) ∧
      getFileSize (fun _ => Except.ok (okResponse none)) "https://cdn.a.com/x.js" [] =
        Except.ok (SizeValue.string "N/A", []) ∧
      getFileSize (fun _ => Except.ok { ok := false, headersGet := fun _ => some "2048" })
          "https://cdn.a.com/x.js" [] =
        Except.ok (SizeValue.string "Unavailable", []) :=
  have hint : IntegerHeader " -12 bytes" true [ '1', '2'] :=
    ⟨by decide, by decide, [ ' '], [ '-'], [ ' ', 'b', 'y', 't', 'e', 's'], rfl, by decide,
      Or.inr (Or.inr ⟨rfl, rfl⟩), fun c h => by
        have hc : ' ' = c := Option.some.inj h
        rw [← hc]
        decide⟩
  have hex : ExactDouble 12 := exactDouble_of_lt 12 (by decide)
  ⟨hint, by decide, hex,
    ((getFileSize_contract (fun _ => Except.ok (okResponse (some " -12 bytes")))
      "https://cdn.a.com/x.js" []).1 (okResponse (some " -12 bytes")) " -12 bytes" true
      [ '1', '2'] rfl rfl rfl hint).1.mpr hex,
    rfl,
    (getFileSize_contract (fun _ => Except.ok (okResponse none))
      "https://cdn.a.com/x.js" []).2.2.2.1 (okResponse none) rfl rfl rfl,
    (getFileSize_contract (fun _ => Except.ok { ok := false, headersGet := fun _ => some "2048" })
      "https://cdn.a.com/x.js" []).2.2.2.2.2.1 _ rfl rfl⟩

/-- C4 as stated fails: the header `9007199254740993` spells an integer, and
the probe gives 9007199254740992. -/
theorem large_length_is_rounded :
    IntegerHeader "9007199254740993" false "9007199254740993".data ∧
      decimalValue "9007199254740993".data = 9007199254740993 ∧
      getFileSize (fun _ => Except.ok (okResponse (some "9007199254740993")))
          "https://cdn.a.com/x.js" [] =
        Except.ok (SizeValue.number (JSNumber.finite 9007199254740992 0), []) ∧
      getFileSize (fun _ => Except.ok (okResponse (some "9007199254740993")))
          "https://cdn.a.com/x.js" [] ≠
        Except.ok (SizeValue.number (JSNumber.finite 9007199254740993 0), []) := by
  have hg : getFileSize (fun _ => Except.ok (okResponse (some "9007199254740993")))
      "https://cdn.a.com/x.js" [] =
      Except.ok (SizeValue.number (JSNumber.finite 9007199254740992 0), []) := rfl
  refine ⟨⟨by decide, by decide, [], [], [], rfl, by decide, Or.inl ⟨rfl, rfl⟩, ?_⟩,
    by decide, hg, ?_⟩
  · intro c h
    exact Option.noConfusion h
  · rw [hg]
    intro h
    have h1 := Except.ok.inj h
    exact absurd h1 (by decide)

/-- C5. A byte count `n` below `2 ^ 53` is shown as `n / 1024` rounded to
the nearest hundredth, a tie going up: with `q` that number of hundredths,
the column holds the digits of `q / 100`, a point, and the two digits of
`q % 100`.  A string from the probe is shown unchanged, and the column of a
record is always computed this way from what the probe gave. -/
theorem fileSizeInKB_format (env : Env) (n : Nat) (hn : n < 2 ^ 53) :
    (∃ q : Nat, 200 * n < 2048 * q + 1024 ∧ 2048 * q ≤ 200 * n + 1024 ∧
        fileSizeInKB env (SizeValue.number (JSNumber.finite n 0)) =
          String.mk (Nat.toDigits 10 (q / 100) ++
            [ '.', Nat.digitChar (q / 10 % 10), Nat.digitChar (q % 10)])) ∧
      (∀ s, fileSizeInKB env (SizeValue.string s) = s) ∧
      (∀ task outcome console v c,
        getFileSize (fun _ => outcome) (jsToString task.url) console = Except.ok (v, c) →
        completeTask env task outcome console =
          Except.ok
            ({ URL := task.url, Domain := task.domain, fileSizeKB := fileSizeInKB env v }, c)) := by
  refine ⟨⟨(2 * n * 10 ^ 2 + 2 ^ 10) / (2 * 2 ^ 10), ?_, ?_, ?_⟩, fun s => rfl, ?_⟩
  · omega
  · omega
  · have hlt : n < 10 ^ 21 * 2 ^ (0 + 10) := by
      have h53 : (2 : Nat) ^ 53 < 10 ^ 21 * 2 ^ (0 + 10) := by decide
      omega
    simp only [fileSizeInKB, JSNumber.divPow2]
    exact toFixed_two env.largeToString n (0 + 10) hlt
  · intro task outcome console v c hg
    simp only [completeTask, hg]

/-- C5, on the byte counts 2048 and 10240 of the specification. -/
theorem fileSizeInKB_format_witness :
    (2048 < 2 ^ 53) ∧
      ((∃ q : Nat, 200 * 2048 < 2048 * q + 1024 ∧ 2048 * q ≤ 200 * 2048 + 1024 ∧
          fileSizeInKB exampleEnv (SizeValue.number (JSNumber.finite (2048 : Nat) 0)) =
            String.mk (Nat.toDigits 10 (q / 100) ++
              [ '.', Nat.digitChar (q / 10 % 10), Nat.digitChar (q % 10)])) ∧
        (∀ s, fileSizeInKB exampleEnv (SizeValue.string s) = s) ∧
        (∀ task outcome console v c,
          getFileSize (fun _ => outcome) (jsToString task.url) console = Except.ok (v, c) →
          completeTask exampleEnv task outcome console =
            Except.ok
              ({ URL := task.url, Domain := task.domain,
                 fileSizeKB := fileSizeInKB exampleEnv v }, c))) ∧
      fileSizeInKB exampleEnv (SizeValue.number (JSNumber.finite 2048 0)) = "2.00" ∧
      fileSizeInKB exampleEnv (SizeValue.number (JSNumber.finite 10240 0)) = "10.00" ∧
      fileSizeInKB exampleEnv (SizeValue.number (JSNumber.finite 1029 0)) = "1.00" ∧
      fileSizeInKB exampleEnv (SizeValue.number (JSNumber.finite 128 0)) = "0.13" :=
  ⟨by decide, fileSizeInKB_format exampleEnv 2048 (by decide), by decide, by decide,
    by decide, by decide⟩

/-- C7 fails on the code: a successful response whose `content-length` is
`abc` puts `NaN` in the size column, which is neither of the two strings
`N/A` and `Unavailable`. -/
theorem unparseable_length_shows_NaN :
    parseInt "abc" = JSNumber.nan ∧
      (analyze exampleEnv [scriptTag "https://cdn.a.com/x.js"]
          [{ task := 0, outcome := Except.ok (okResponse (some "abc")) }]).renderBlockingScripts =
        [{ URL := some "https://cdn.a.com/x.js", Domain := "a.com", fileSizeKB := "NaN" }] ∧
      "NaN" ≠ "N/A" ∧ "NaN" ≠ "Unavailable" := by
  decide

/-! ## The run -/

theorem deriveDomain_ok (env : Env) (url : String) :
    ∃ domain, deriveDomain env url = Except.ok domain := by
  unfold deriveDomain
  cases env.urlHostname url with
  | ok hostname => exact ⟨_, rfl⟩
  | error err => exact ⟨_, rfl⟩

theorem beginTask_ok (env : Env) (script : Element) :
    ∃ domain, deriveDomain env (jsToString (script.src env)) = Except.ok domain ∧
      beginTask env script = Except.ok { url := script.src env, domain := domain } := by
  obtain ⟨domain, hd⟩ := deriveDomain_ok env (jsToString (script.src env))
  exact ⟨domain, hd, by simp only [beginTask, hd]⟩

/-- The probe gives a value, and the value does not depend on what the
console held. -/
theorem getFileSize_ok (fetch : String → Except JSError Response) (url : String)
    (console : List ConsoleEvent) :
    ∃ v c c0, getFileSize fetch url console = Except.ok (v, c) ∧
      getFileSize fetch url [] = Except.ok (v, c0) := by
  cases hf : fetch url with
  | error err =>
    simp only [getFileSize, hf]
    exact ⟨_, _, _, rfl, rfl⟩
  | ok response =>
    cases hok : response.ok with
    | false =>
      simp only [getFileSize, hf, hok]
      exact ⟨_, _, _, rfl, rfl⟩
    | true =>
      cases hh : response.headersGet "content-length" with
      | none =>
        simp only [getFileSize, hf, hok, hh, if_true]
        exact ⟨_, _, _, rfl, rfl⟩
      | some contentLength =>
        simp only [getFileSize, hf, hok, hh, if_true]
        by_cases hne : contentLength ≠ ""
        · rw [if_pos hne, if_pos hne]
          exact ⟨_, _, _, rfl, rfl⟩
        · rw [if_neg hne, if_neg hne]
          exact ⟨_, _, _, rfl, rfl⟩

theorem completeTask_ok (env : Env) (task : Task) (outcome : Except JSError Response)
    (console : List ConsoleEvent) :
    ∃ r c c0, completeTask env task outcome console = Except.ok (r, c) ∧
      completeTask env task outcome [] = Except.ok (r, c0) ∧
      r.URL = task.url ∧ r.Domain = task.domain := by
  obtain ⟨v, c, c0, hg, hg0⟩ := getFileSize_ok (fun _ => outcome) (jsToString task.url) console
  refine ⟨{ URL := task.url, Domain := task.domain, fileSizeKB := fileSizeInKB env v }, c, c0,
    ?_, ?_, rfl, rfl⟩
  · simp only [completeTask, hg]
  · simp only [completeTask, hg0]

/-- No error escapes the callback of a script, whatever its probe answers. -/
theorem enrich_ok (env : Env) (script : Element) (outcome : Except JSError Response) :
    ∃ r, enrich env script outcome = some r ∧ r.URL = script.src env ∧
      deriveDomain env (jsToString (script.src env)) = Except.ok r.Domain := by
  obtain ⟨domain, hd, hb⟩ := beginTask_ok env script
  obtain ⟨r, c, c0, _, h0, hu, hdm⟩ :=
    completeTask_ok env { url := script.src env, domain := domain } outcome []
  refine ⟨r, by simp only [enrich, hb, h0], hu, ?_⟩
  rw [hd, hdm]

theorem enrich_of_task (env : Env) (script : Element) (task : Task)
    (outcome : Except JSError Response) (r : ScriptRecord) (c : List ConsoleEvent)
    (hb : beginTask env script = Except.ok task)
    (hc : completeTask env task outcome [] = Except.ok (r, c)) :
    enrich env script outcome = some r := by
  simp only [enrich, hb, hc]

/-- The synchronous pass starts one callback per script and issues one probe
per script, in order, and touches nothing else. -/
theorem startTasks_spec (env : Env) : ∀ (scripts : List Element) (st : RunState),
    (startTasks env scripts st).tasks.map (fun t => t.url) =
        st.tasks.map (fun t => t.url) ++ scripts.map (fun s => s.src env) ∧
      (startTasks env scripts st).probes =
        st.probes ++ scripts.map (fun s => jsToString (s.src env)) ∧
      (startTasks env scripts st).settled = st.settled ∧
      (startTasks env scripts st).rejected = st.rejected ∧
      (startTasks env scripts st).renderBlockingScripts = st.renderBlockingScripts ∧
      (startTasks env scripts st).console = st.console ∧
      (startTasks env scripts st).tasks.map Except.ok =
        st.tasks.map Except.ok ++ scripts.map (beginTask env) := by
  intro scripts
  induction scripts with
  | nil =>
    intro st
    simp [startTasks]
  | cons script rest ih =>
    intro st
    obtain ⟨domain, hd, hb⟩ := beginTask_ok env script
    simp only [startTasks, hb]
    obtain ⟨h1, h2, h3, h4, h5, h6, h7⟩ := ih
      { st with tasks := st.tasks ++ [{ url := script.src env, domain := domain }],
                probes := st.probes ++ [jsToString (script.src env)] }
    refine ⟨?_, ?_, h3, h4, h5, h6, ?_⟩
    · rw [h1]; simp
    · rw [h2]; simp
    · rw [h7]; simp [hb]

/-- What one probe completion does to the state. -/
theorem settle_cases (env : Env) (st : RunState) (ev : ProbeEvent) :
    (settle env st ev = st ∧ (st.tasks.length ≤ ev.task ∨ ev.task ∈ st.settled)) ∨
      (ev.task < st.tasks.length ∧ ev.task ∉ st.settled ∧
        ∃ task r c c0, st.tasks[ev.task]? = some task ∧
          completeTask env task ev.outcome [] = Except.ok (r, c0) ∧
          r.URL = task.url ∧ r.Domain = task.domain ∧
          settle env st ev =
            { st with
              settled := st.settled ++ [ev.task],
              renderBlockingScripts := st.renderBlockingScripts ++ [r],
              console := c }) := by
  cases ht : st.tasks[ev.task]? with
  | none =>
    left
    refine ⟨by simp only [settle, ht], Or.inl ?_⟩
    exact List.getElem?_eq_none_iff.mp ht
  | some task =>
    by_cases hs : ev.task ∈ st.settled
    · left
      exact ⟨by simp only [settle, ht, if_pos hs], Or.inr hs⟩
    · right
      have hlt : ev.task < st.tasks.length := by
        by_contra hge
        have := List.getElem?_eq_none_iff.mpr (Nat.le_of_not_lt hge)
        rw [this] at ht
        exact Option.noConfusion ht
      obtain ⟨r, c, c0, hc, hc0, hu, hd⟩ := completeTask_ok env task ev.outcome st.console
      exact ⟨hlt, hs, task, r, c, c0, rfl, hc0, hu, hd, by simp only [settle, ht, if_neg hs, hc]⟩

theorem settle_tasks (env : Env) (st : RunState) (ev : ProbeEvent) :
    (settle env st ev).tasks = st.tasks ∧ (settle env st ev).probes = st.probes := by
  rcases settle_cases env st ev with ⟨h, _⟩ | ⟨_, _, _, _, _, _, _, _, _, _, h⟩
  · rw [h]; exact ⟨rfl, rfl⟩
  · rw [h]; exact ⟨rfl, rfl⟩

theorem settle_consistent (env : Env) (st : RunState) (ev : ProbeEvent)
    (hst : st.Consistent) : (settle env st ev).Consistent := by
  rcases settle_cases env st ev with ⟨h, _⟩ | ⟨hlt, hnot, task, r, c, c0, ht, _, hu, hd, h⟩
  · rw [h]; exact hst
  · rw [h]
    refine ⟨hst.rejected_none, ?_, ?_, ?_⟩
    · show (st.settled ++ [ev.task]).Nodup
      rw [List.nodup_append]
      refine ⟨hst.settled_nodup, List.nodup_singleton _, ?_⟩
      intro a ha hb
      rw [List.mem_singleton] at hb
      exact hnot (hb ▸ ha)
    · intro i hi
      have hi' : i ∈ st.settled ++ [ev.task] := hi
      rw [List.mem_append, List.mem_singleton] at hi'
      rcases hi' with hi' | hi'
      · exact hst.settled_lt i hi'
      · rw [hi']; exact hlt
    · show (st.renderBlockingScripts ++ [r]).map _ = (st.settled ++ [ev.task]).map _
      have hgetD : st.tasks.getD ev.task { url := none, domain := "" } = task := by
        simp [ht]
      rw [List.map_append, List.map_append, hst.rows_eq]
      simp only [List.map_cons, List.map_nil, hgetD, hu, hd]

theorem foldl_settle_spec (env : Env) : ∀ (events : List ProbeEvent) (st : RunState),
    st.Consistent →
      (events.foldl (settle env) st).Consistent ∧
        (events.foldl (settle env) st).tasks = st.tasks ∧
        (events.foldl (settle env) st).probes = st.probes ∧
        (∀ i, i ∈ st.settled → i ∈ (events.foldl (settle env) st).settled) ∧
        (∀ i, i < st.tasks.length → i ∈ events.map (fun ev => ev.task) →
          i ∈ (events.foldl (settle env) st).settled) := by
  intro events
  induction events with
  | nil =>
    intro st hst
    exact ⟨hst, rfl, rfl, fun i hi => hi, fun i _ hi => by simp at hi⟩
  | cons ev rest ih =>
    intro st hst
    obtain ⟨hc, ht, hp, hmono, hcov⟩ := ih (settle env st ev) (settle_consistent env st ev hst)
    have hstep : ∀ i, i ∈ st.settled → i ∈ (settle env st ev).settled := by
      intro i hi
      rcases settle_cases env st ev with ⟨h, _⟩ | ⟨_, _, _, _, _, _, _, _, _, _, h⟩
      · rw [h]; exact hi
      · rw [h]; exact List.mem_append_left _ hi
    have hnow : ev.task < st.tasks.length → ev.task ∈ (settle env st ev).settled := by
      intro hlt
      rcases settle_cases env st ev with ⟨h, hor⟩ | ⟨_, _, _, _, _, _, _, _, _, _, h⟩
      · rw [h]
        rcases hor with hge | hin
        · omega
        · exact hin
      · rw [h]; exact List.mem_append_right _ (List.mem_singleton.mpr rfl)
    simp only [List.foldl_cons]
    refine ⟨hc, ?_, ?_, ?_, ?_⟩
    · rw [ht, (settle_tasks env st ev).1]
    · rw [hp, (settle_tasks env st ev).2]
    · intro i hi
      exact hmono i (hstep i hi)
    · intro i hlt hi
      simp only [List.map_cons, List.mem_cons] at hi
      rcases hi with hi | hi
      · rw [hi]
        exact hmono _ (hnow (hi ▸ hlt))
      · exact hcov i (by rw [(settle_tasks env st ev).1]; exact hlt) hi

/-- When the completions name distinct waiting callbacks, they settle in the
order of the completions. -/
theorem foldl_settle_order (env : Env) : ∀ (events : List ProbeEvent) (st : RunState),
    (events.map (fun ev => ev.task)).Nodup →
      (∀ i ∈ events.map (fun ev => ev.task), i < st.tasks.length ∧ i ∉ st.settled) →
      (events.foldl (settle env) st).settled = st.settled ++ events.map (fun ev => ev.task) := by
  intro events
  induction events with
  | nil => intro st _ _; simp
  | cons ev rest ih =>
    intro st hnd hall
    simp only [List.map_cons, List.nodup_cons] at hnd
    have hev := hall ev.task (by simp)
    rcases settle_cases env st ev with ⟨_, hor⟩ | ⟨_, _, _, _, _, _, _, _, _, _, h⟩
    · rcases hor with hge | hin
      · omega
      · exact absurd hin hev.2
    · simp only [List.foldl_cons]
      rw [ih (settle env st ev) hnd.2 ?_]
      · rw [h]; simp
      · intro i hi
        have hi2 := hall i (by simp only [List.map_cons, List.mem_cons]; exact Or.inr hi)
        rw [h]
        refine ⟨hi2.1, ?_⟩
        show i ∉ st.settled ++ [ev.task]
        rw [List.mem_append, List.mem_singleton]
        rintro (hx | hx)
        · exact hi2.2 hx
        · exact hnd.1 (hx ▸ hi)

/-- Each row is the record of the callback that pushed it, computed from the
outcome of the first completion that names the callback. -/
theorem foldl_settle_rows (env : Env) : ∀ (events : List ProbeEvent) (st : RunState)
    (G : Nat → Option ScriptRecord),
    st.renderBlockingScripts.map some = st.settled.map G →
      (∀ i task ev, st.tasks[i]? = some task → i ∉ st.settled →
        events.find? (fun e => e.task == i) = some ev →
        ∀ r c, completeTask env task ev.outcome [] = Except.ok (r, c) → G i = some r) →
      (events.foldl (settle env) st).renderBlockingScripts.map some =
        (events.foldl (settle env) st).settled.map G := by
  intro events
  induction events with
  | nil => intro st G h _; exact h
  | cons ev rest ih =>
    intro st G hrows hG
    simp only [List.foldl_cons]
    rcases settle_cases env st ev with ⟨h, hor⟩ | ⟨hlt, hnot, task, r, c, c0, ht, hc0, _, _, h⟩
    · rw [h]
      apply ih st G hrows
      intro i task ev2 hti hni hfind r c hc
      have hne : (ev.task == i) = false := by
        rw [beq_eq_false_iff_ne]
        intro he
        rcases hor with hge | hin
        · have hnone := List.getElem?_eq_none_iff.mpr hge
          rw [he, hti] at hnone
          exact Option.noConfusion hnone
        · exact hni (he ▸ hin)
      exact hG i task ev2 hti hni (by rw [List.find?_cons, hne]; exact hfind) r c hc
    · have hGev : G ev.task = some r :=
        hG ev.task task ev ht hnot (by rw [List.find?_cons]; simp) r c0 hc0
      apply ih (settle env st ev) G
      · rw [h]
        show (st.renderBlockingScripts ++ [r]).map some = (st.settled ++ [ev.task]).map G
        rw [List.map_append, List.map_append, hrows]
        simp [hGev]
      · intro i task2 ev2 hti hni hfind r2 c2 hc2
        rw [h] at hti hni
        have hni2 : i ∉ st.settled ++ [ev.task] := hni
        rw [List.mem_append, List.mem_singleton] at hni2
        have hne : (ev.task == i) = false := by
          rw [beq_eq_false_iff_ne]
          intro he
          exact hni2 (Or.inr he.symm)
        exact hG i task2 ev2 hti (fun hx => hni2 (Or.inl hx))
          (by rw [List.find?_cons, hne]; exact hfind) r2 c2 hc2

theorem map_getD_range {α : Type} (l : List α) (d : α) :
    (List.range l.length).map (fun i => l.getD i d) = l := by
  apply List.ext_getElem
  · simp
  · intro i h1 h2
    simp at h1
    simp [h1]

theorem getD_map_url (tasks : List Task) (i : Nat) :
    (tasks.getD i { url := none, domain := "" }).url =
      (tasks.map (fun t => t.url)).getD i none := by
  simp only [List.getD_eq_getElem?_getD, List.getElem?_map]
  cases tasks[i]? <;> rfl

/-- The state left by the completions, before `Promise.all` is looked at. -/
theorem run_spec (env : Env) (blocking : List Element) (events : List ProbeEvent) :
    (events.foldl (settle env) (startTasks env blocking RunState.empty)).Consistent ∧
      (events.foldl (settle env) (startTasks env blocking RunState.empty)).tasks.map
          (fun t => t.url) = blocking.map (fun s => s.src env) ∧
      (events.foldl (settle env) (startTasks env blocking RunState.empty)).probes =
          blocking.map (fun s => jsToString (s.src env)) ∧
      (events.foldl (settle env) (startTasks env blocking RunState.empty)).renderBlockingScripts.map
          some =
        (events.foldl (settle env) (startTasks env blocking RunState.empty)).settled.map
          (fun i => (blocking[i]?).bind (fun s =>
            (events.find? (fun ev => ev.task == i)).bind (fun ev => enrich env s ev.outcome))) ∧
      (∀ i, i < blocking.length → i ∈ events.map (fun ev => ev.task) →
          i ∈ (events.foldl (settle env) (startTasks env blocking RunState.empty)).settled) ∧
      ((events.map (fun ev => ev.task)).Nodup →
        (∀ i ∈ events.map (fun ev => ev.task), i < blocking.length) →
          (events.foldl (settle env) (startTasks env blocking RunState.empty)).settled =
            events.map (fun ev => ev.task)) := by
  obtain ⟨h1, h2, h3, h4, h5, h6, h7⟩ := startTasks_spec env blocking RunState.empty
  have hlen : (startTasks env blocking RunState.empty).tasks.length = blocking.length := by
    have := congrArg List.length h1
    simpa [RunState.empty] using this
  have hstart : (startTasks env blocking RunState.empty).Consistent := by
    refine ⟨by rw [h4]; rfl, by rw [h3]; exact List.nodup_nil, ?_, ?_⟩
    · intro i hi
      rw [h3] at hi
      simp [RunState.empty] at hi
    · rw [h5, h3]
      rfl
  obtain ⟨hc, ht, hp, _, hcov⟩ :=
    foldl_settle_spec env events (startTasks env blocking RunState.empty) hstart
  refine ⟨hc, ?_, ?_, ?_, ?_, ?_⟩
  · rw [ht, h1]; simp [RunState.empty]
  · rw [hp, h2]; simp [RunState.empty]
  · apply foldl_settle_rows env events (startTasks env blocking RunState.empty)
    · rw [h5, h3]
      rfl
    · intro i task ev hti _ hfind r c hcomp
      have hmap : ((startTasks env blocking RunState.empty).tasks.map
          (Except.ok : Task → Except JSError Task))[i]? = (blocking.map (beginTask env))[i]? := by
        rw [h7]
        simp [RunState.empty]
      rw [List.getElem?_map, List.getElem?_map, hti] at hmap
      cases hb : blocking[i]? with
      | none =>
        rw [hb] at hmap
        exact Option.noConfusion hmap
      | some s =>
        rw [hb] at hmap
        have hbs : beginTask env s = Except.ok task := (Option.some.inj hmap).symm
        simp only [Option.bind, hfind]
        exact enrich_of_task env s task ev.outcome r c hbs hcomp
  · intro i hi
    exact hcov i (by rw [hlen]; exact hi)
  · intro hnd hlt
    rw [foldl_settle_order env events _ hnd ?_, h3]
    · simp [RunState.empty]
    · intro i hi
      rw [hlen, h3]
      exact ⟨hlt i hi, by simp [RunState.empty]⟩

/-- The final state differs from the state left by the completions in its
console only, when there is a blocking script. -/
theorem analyze_nonempty (env : Env) (doc : Document) (events : List ProbeEvent)
    (hne : (blockingScripts (scriptElements doc)).length ≠ 0) :
    ∃ c, analyze env doc events =
      { events.foldl (settle env)
          (startTasks env (blockingScripts (scriptElements doc)) RunState.empty) with
        console := c } := by
  simp only [analyze, if_neg hne]
  split
  · exact ⟨_, rfl⟩
  · exact ⟨_, rfl⟩

theorem analyze_empty (env : Env) (doc : Document) (events : List ProbeEvent)
    (he : (blockingScripts (scriptElements doc)).length = 0) :
    analyze env doc events =
      { RunState.empty with console := [ConsoleEvent.log noBlockingMessage] } := by
  simp only [analyze, if_pos he]

/-- What holds of the final state of every run. -/
theorem analyze_core (env : Env) (doc : Document) (events : List ProbeEvent) :
    (analyze env doc events).Consistent ∧
      (analyze env doc events).tasks.map (fun t => t.url) =
        (blockingScripts (scriptElements doc)).map (fun s => s.src env) ∧
      (analyze env doc events).renderBlockingScripts.map some =
        (analyze env doc events).settled.map
          (fun i => ((blockingScripts (scriptElements doc))[i]?).bind (fun s =>
            (events.find? (fun ev => ev.task == i)).bind (fun ev => enrich env s ev.outcome))) ∧
      (∀ i, i < (blockingScripts (scriptElements doc)).length →
        i ∈ events.map (fun ev => ev.task) → i ∈ (analyze env doc events).settled) ∧
      ((events.map (fun ev => ev.task)).Nodup →
        (∀ i ∈ events.map (fun ev => ev.task), i < (blockingScripts (scriptElements doc)).length) →
          (analyze env doc events).settled = events.map (fun ev => ev.task)) := by
  by_cases he : (blockingScripts (scriptElements doc)).length = 0
  · rw [analyze_empty env doc events he]
    have hnil : blockingScripts (scriptElements doc) = [] := List.length_eq_zero.mp he
    refine ⟨⟨rfl, List.nodup_nil, fun i hi => by simp [RunState.empty] at hi, rfl⟩, ?_, rfl, ?_, ?_⟩
    · rw [hnil]; rfl
    · intro i hi; omega
    · intro _ hlt
      cases hev : events.map (fun ev => ev.task) with
      | nil => rfl
      | cons i rest =>
        have := hlt i (by rw [hev]; simp)
        omega
  · obtain ⟨c, hc⟩ := analyze_nonempty env doc events he
    obtain ⟨r1, r2, _, r4, r5, r6⟩ := run_spec env (blockingScripts (scriptElements doc)) events
    rw [hc]
    exact ⟨⟨r1.rejected_none, r1.settled_nodup, r1.settled_lt, r1.rows_eq⟩, r2, r4, r5, r6⟩

/-- Once every probe has settled, the table is printed with the rows pushed. -/
theorem analyze_table (env : Env) (doc : Document) (events : List ProbeEvent)
    (hne : (blockingScripts (scriptElements doc)).length ≠ 0)
    (hall : ∀ i, i < (blockingScripts (scriptElements doc)).length →
      i ∈ events.map (fun ev => ev.task)) :
    ∃ c, (analyze env doc events).console =
      c ++ [ConsoleEvent.log foundMessage,
        ConsoleEvent.table (analyze env doc events).renderBlockingScripts] := by
  obtain ⟨r1, r2, _, _, r5, _⟩ := run_spec env (blockingScripts (scriptElements doc)) events
  have hlen : (events.foldl (settle env)
      (startTasks env (blockingScripts (scriptElements doc)) RunState.empty)).tasks.length =
      (blockingScripts (scriptElements doc)).length := by
    have := congrArg List.length r2
    simpa using this
  have hs : (events.foldl (settle env)
      (startTasks env (blockingScripts (scriptElements doc)) RunState.empty)).allSettled = true := by
    simp only [RunState.allSettled, List.all_eq_true, List.mem_range, decide_eq_true_eq]
    intro i hi
    exact r5 i (by omega) (hall i (by omega))
  simp only [analyze, if_neg hne]
  rw [if_pos ⟨hs, r1.rejected_none⟩]
  exact ⟨_, rfl⟩

/-- The blocking scripts of a page, in terms of the page itself. -/
theorem blocking_of_doc (doc : Document) :
    List.Sublist (blockingScripts (scriptElements doc)) doc ∧
      (∀ e, e ∈ blockingScripts (scriptElements doc) ↔
        e ∈ doc ∧ e.localName = "script" ∧ e.hasAttribute "src" = true ∧
          e.hasAttribute "async" = false ∧ e.hasAttribute "defer" = false) ∧
      (∀ e, e.localName = "script" → e.hasAttribute "src" = true →
        e.hasAttribute "async" = false → e.hasAttribute "defer" = false →
        (blockingScripts (scriptElements doc)).count e = doc.count e) := by
  refine ⟨?_, ?_, ?_⟩
  · exact (List.filter_sublist _).trans (List.filter_sublist _)
  · intro e
    simp only [blockingScripts, scriptElements, List.mem_filter, Bool.and_eq_true,
      Bool.not_eq_true', beq_iff_eq]
    constructor
    · rintro ⟨⟨h1, h2, h3⟩, h4, h5⟩
      exact ⟨h1, h2, h3, h4, h5⟩
    · rintro ⟨h1, h2, h3, h4, h5⟩
      exact ⟨⟨h1, h2, h3⟩, h4, h5⟩
  · intro e h1 h2 h3 h4
    unfold blockingScripts scriptElements
    rw [List.count_filter (by simp [h3, h4]), List.count_filter (by simp [h1, h2])]

theorem find_of_mem_tasks (events : List ProbeEvent) (i : Nat)
    (h : i ∈ events.map (fun ev => ev.task)) :
    ∃ ev, events.find? (fun x => x.task == i) = some ev := by
  cases hf : events.find? (fun x => x.task == i) with
  | some ev => exact ⟨ev, rfl⟩
  | none =>
    rw [List.find?_eq_none] at hf
    obtain ⟨ev, hev, hi⟩ := List.mem_map.mp h
    have := hf ev hev
    simp [hi] at this

/-- The URLs of the rows are those of the settled callbacks, in the order
in which they settled. -/
theorem rows_url (env : Env) (doc : Document) (events : List ProbeEvent) :
    (analyze env doc events).renderBlockingScripts.map (fun r => r.URL) =
      (analyze env doc events).settled.map
        (fun i => ((blockingScripts (scriptElements doc)).map (fun s => s.src env)).getD i none) := by
  obtain ⟨hc, htasks, _, _, _⟩ := analyze_core env doc events
  have h := congrArg (List.map (fun t : Task => t.url)) hc.rows_eq
  simp only [List.map_map] at h
  rw [← htasks]
  refine Eq.trans ?_ (Eq.trans h ?_)
  · rfl
  · apply List.map_congr_left
    intro i _
    exact getD_map_url _ i

/-- C2. Whatever the probes answer, no error escapes a callback, and once
the probe of every blocking script has settled the array holds exactly one
row per blocking script.  The blocking scripts are the `script` elements of
the page that have a `src` and neither `async` nor `defer`, each as often as
on the page and in page order.  The callbacks that pushed the rows are a
permutation of them; row `k` is the record of the `k`-th callback to settle:
the `src` of its script, the domain derived from it, and the size column
computed from the outcome of the first completion of its probe.  So the
URLs of the rows are those of the blocking scripts up to order, there are as
many rows as blocking scripts, one probe was issued per blocking script, a
script with `async` or `defer` has no row, and the table printed is that
array. -/
theorem record_set (env : Env) (doc : Document) (events : List ProbeEvent)
    (hall : ∀ i, i < (blockingScripts (scriptElements doc)).length →
      i ∈ events.map (fun ev => ev.task)) :
    (analyze env doc events).rejected = none ∧
      (∀ script outcome, ∃ r, enrich env script outcome = some r ∧ r.URL = script.src env ∧
        deriveDomain env (jsToString (script.src env)) = Except.ok r.Domain) ∧
      (∀ script, ∃ task, beginTask env script = Except.ok task) ∧
      (∀ task outcome console, ∃ r, completeTask env task outcome console = Except.ok r) ∧
      List.Sublist (blockingScripts (scriptElements doc)) doc ∧
      (∀ e, e ∈ blockingScripts (scriptElements doc) ↔
        e ∈ doc ∧ e.localName = "script" ∧ e.hasAttribute "src" = true ∧
          e.hasAttribute "async" = false ∧ e.hasAttribute "defer" = false) ∧
      (∀ e, e.localName = "script" → e.hasAttribute "src" = true →
        e.hasAttribute "async" = false → e.hasAttribute "defer" = false →
        (blockingScripts (scriptElements doc)).count e = doc.count e) ∧
      List.Perm (analyze env doc events).settled
        (List.range (blockingScripts (scriptElements doc)).length) ∧
      (analyze env doc events).renderBlockingScripts.map some =
        (analyze env doc events).settled.map
          (fun i => ((blockingScripts (scriptElements doc))[i]?).bind (fun s =>
            (events.find? (fun ev => ev.task == i)).bind (fun ev => enrich env s ev.outcome))) ∧
      (analyze env doc events).renderBlockingScripts.map (fun r => r.URL) =
        (analyze env doc events).settled.map
          (fun i =>
            ((blockingScripts (scriptElements doc)).map (fun s => s.src env)).getD i none) ∧
      List.Perm ((analyze env doc events).renderBlockingScripts.map (fun r => r.URL))
        ((blockingScripts (scriptElements doc)).map (fun s => s.src env)) ∧
      (analyze env doc events).renderBlockingScripts.length =
        (blockingScripts (scriptElements doc)).length ∧
      (∀ r ∈ (analyze env doc events).renderBlockingScripts,
        deriveDomain env (jsToString r.URL) = Except.ok r.Domain) ∧
      (∀ e, e.hasAttribute "async" = true ∨ e.hasAttribute "defer" = true →
        e ∉ blockingScripts (scriptElements doc)) ∧
      (blockingScripts (scriptElements doc) ≠ [] →
        (analyze env doc events).probes =
            (blockingScripts (scriptElements doc)).map (fun s => jsToString (s.src env)) ∧
          ∃ c, (analyze env doc events).console =
            c ++ [ConsoleEvent.log foundMessage,
              ConsoleEvent.table (analyze env doc events).renderBlockingScripts]) := by
  obtain ⟨hc, htasks, hrows, hcov, _⟩ := analyze_core env doc events
  obtain ⟨hsub, hmem, hcount⟩ := blocking_of_doc doc
  have hlen : (analyze env doc events).tasks.length =
      (blockingScripts (scriptElements doc)).length := by
    have := congrArg List.length htasks
    simpa using this
  have hperm : List.Perm (analyze env doc events).settled
      (List.range (blockingScripts (scriptElements doc)).length) := by
    rw [List.perm_ext_iff_of_nodup hc.settled_nodup (List.nodup_range _)]
    intro i
    rw [List.mem_range]
    constructor
    · intro hi
      rw [← hlen]
      exact hc.settled_lt i hi
    · intro hi
      exact hcov i hi (hall i hi)
  have hurl := rows_url env doc events
  have hpermUrl : List.Perm ((analyze env doc events).renderBlockingScripts.map (fun r => r.URL))
      ((blockingScripts (scriptElements doc)).map (fun s => s.src env)) := by
    rw [hurl]
    have h := hperm.map
      (fun i => ((blockingScripts (scriptElements doc)).map (fun s => s.src env)).getD i none)
    have hr := map_getD_range ((blockingScripts (scriptElements doc)).map (fun s => s.src env)) none
    rw [List.length_map] at hr
    rw [hr] at h
    exact h
  refine ⟨hc.rejected_none, enrich_ok env, ?_, ?_, hsub, hmem, hcount, hperm, hrows, hurl,
    hpermUrl, ?_, ?_, ?_, ?_⟩
  · intro script
    obtain ⟨domain, _, hb⟩ := beginTask_ok env script
    exact ⟨_, hb⟩
  · intro task outcome console
    obtain ⟨r, c, _, h, _⟩ := completeTask_ok env task outcome console
    exact ⟨_, h⟩
  · have := hpermUrl.length_eq
    simpa using this
  · intro r hr
    have hm : some r ∈ (analyze env doc events).renderBlockingScripts.map some :=
      List.mem_map.mpr ⟨r, hr, rfl⟩
    rw [hrows, List.mem_map] at hm
    obtain ⟨i, _, hG⟩ := hm
    cases hb : (blockingScripts (scriptElements doc))[i]? with
    | none =>
      rw [hb] at hG
      exact Option.noConfusion hG
    | some s =>
      cases hf : events.find? (fun ev => ev.task == i) with
      | none =>
        rw [hb, hf] at hG
        exact Option.noConfusion hG
      | some ev =>
        rw [hb, hf] at hG
        obtain ⟨r2, he, hu, hd⟩ := enrich_ok env s ev.outcome
        have hG2 : enrich env s ev.outcome = some r := hG
        rw [he] at hG2
        have hr2 : r2 = r := Option.some.inj hG2
        rw [← hr2, hu]
        exact hd
  · intro e he hin
    have h := (hmem e).mp hin
    rcases he with he | he
    · rw [h.2.2.2.1] at he
      exact Bool.noConfusion he
    · rw [h.2.2.2.2] at he
      exact Bool.noConfusion he
  · intro hne
    have hne0 : (blockingScripts (scriptElements doc)).length ≠ 0 := by
      intro h0
      exact hne (List.length_eq_zero.mp h0)
    refine ⟨?_, analyze_table env doc events hne0 hall⟩
    obtain ⟨c, hcn⟩ := analyze_nonempty env doc events hne0
    rw [hcn]
    exact (run_spec env (blockingScripts (scriptElements doc)) events).2.2.1

/-- C6. On a page where every script with a `src` has `async` or `defer`,
the run writes the one message of line 47 and nothing else, issues no probe
and prints no table. -/
theorem empty_short_circuit (env : Env) (doc : Document) (events : List ProbeEvent)
    (hnone : ∀ e ∈ doc, e.localName = "script" → e.hasAttribute "src" = true →
      e.hasAttribute "async" = true ∨ e.hasAttribute "defer" = true) :
    (analyze env doc events).console = [ConsoleEvent.log noBlockingMessage] ∧
      (analyze env doc events).probes = [] ∧
      (∀ rows, ConsoleEvent.table rows ∉ (analyze env doc events).console) ∧
      (analyze env doc events).renderBlockingScripts = [] := by
  have hnil : blockingScripts (scriptElements doc) = [] := by
    simp only [blockingScripts, List.filter_eq_nil_iff]
    intro e he
    simp only [scriptElements, List.mem_filter, Bool.and_eq_true, beq_iff_eq] at he
    rcases hnone e he.1 he.2.1 he.2.2 with h | h
    · simp [h]
    · simp [h]
  have he : (blockingScripts (scriptElements doc)).length = 0 := by rw [hnil]; rfl
  rw [analyze_empty env doc events he]
  refine ⟨rfl, rfl, ?_, rfl⟩
  intro rows hin
  simp at hin

/-- C10, as the code has it.  When the probes settle in the order given by
`events` (a permutation of the blocking scripts), row `k` of the table is the
row of the `k`-th script to settle; the rows are in document order when the
probes settle in document order. -/
theorem rows_follow_completion (env : Env) (doc : Document) (events : List ProbeEvent)
    (hperm : List.Perm (events.map (fun ev => ev.task))
      (List.range (blockingScripts (scriptElements doc)).length)) :
    (analyze env doc events).renderBlockingScripts.map (fun r => r.URL) =
        events.map (fun ev =>
          ((blockingScripts (scriptElements doc)).map (fun s => s.src env)).getD ev.task none) ∧
      (events.map (fun ev => ev.task) =
          List.range (blockingScripts (scriptElements doc)).length →
        (analyze env doc events).renderBlockingScripts.map (fun r => r.URL) =
          (blockingScripts (scriptElements doc)).map (fun s => s.src env)) ∧
      (blockingScripts (scriptElements doc) ≠ [] →
        ∃ c, (analyze env doc events).console =
          c ++ [ConsoleEvent.log foundMessage,
            ConsoleEvent.table (analyze env doc events).renderBlockingScripts]) := by
  obtain ⟨_, _, _, _, hord⟩ := analyze_core env doc events
  have hnd : (events.map (fun ev => ev.task)).Nodup :=
    hperm.nodup_iff.mpr (List.nodup_range _)
  have hlt : ∀ i ∈ events.map (fun ev => ev.task),
      i < (blockingScripts (scriptElements doc)).length := by
    intro i hi
    exact List.mem_range.mp (hperm.mem_iff.mp hi)
  have hset := hord hnd hlt
  have hurl := rows_url env doc events
  rw [hset] at hurl
  refine ⟨?_, ?_, ?_⟩
  · rw [hurl, List.map_map]
    rfl
  · intro hdoc
    rw [hurl, hdoc]
    have hr := map_getD_range ((blockingScripts (scriptElements doc)).map (fun s => s.src env)) none
    rw [List.length_map] at hr
    exact hr
  · intro hne
    have hne0 : (blockingScripts (scriptElements doc)).length ≠ 0 := by
      intro h0
      exact hne (List.length_eq_zero.mp h0)
    exact analyze_table env doc events hne0
      (fun i hi => hperm.mem_iff.mpr (List.mem_range.mpr hi))

/-- C9, as the code has it.  The candidates are the `script` elements that
have a `src` attribute, whatever its value (the empty string included), each
as often as on the page and in page order; and such a script without `async`
and `defer` is a blocking script whose record is among the rows once every
probe has settled. -/
theorem scriptElements_candidates (env : Env) (doc : Document) (events : List ProbeEvent) :
    List.Sublist (scriptElements doc) doc ∧
      (∀ e, e ∈ scriptElements doc ↔
        e ∈ doc ∧ e.localName = "script" ∧ e.hasAttribute "src" = true) ∧
      (∀ e, e.localName = "script" → e.hasAttribute "src" = true →
        (scriptElements doc).count e = doc.count e) ∧
      (∀ e value, e ∈ doc → e.localName = "script" → ("src", value) ∈ e.attributes →
        e ∈ scriptElements doc) ∧
      (∀ e value, e ∈ doc → e.localName = "script" → ("src", value) ∈ e.attributes →
        e.hasAttribute "async" = false → e.hasAttribute "defer" = false →
        e ∈ blockingScripts (scriptElements doc) ∧
          ((∀ i, i < (blockingScripts (scriptElements doc)).length →
              i ∈ events.map (fun ev => ev.task)) →
            ∃ i ev r, (blockingScripts (scriptElements doc))[i]? = some e ∧
              events.find? (fun x => x.task == i) = some ev ∧
              enrich env e ev.outcome = some r ∧ r.URL = e.src env ∧
              r ∈ (analyze env doc events).renderBlockingScripts)) := by
  have hmem : ∀ e, e ∈ scriptElements doc ↔
      e ∈ doc ∧ e.localName = "script" ∧ e.hasAttribute "src" = true := by
    intro e
    simp [scriptElements, List.mem_filter]
  refine ⟨List.filter_sublist _, hmem, ?_, ?_, ?_⟩
  · intro e h1 h2
    unfold scriptElements
    exact List.count_filter (by simp [h1, h2])
  · intro e value hin hname hsrc
    exact (hmem e).mpr ⟨hin, hname, hasAttribute_of_mem e "src" value hsrc⟩
  · intro e value hin hname hsrc ha hd
    have hb : e ∈ blockingScripts (scriptElements doc) :=
      ((blocking_of_doc doc).2.1 e).mpr
        ⟨hin, hname, hasAttribute_of_mem e "src" value hsrc, ha, hd⟩
    refine ⟨hb, ?_⟩
    intro hall
    obtain ⟨i, hlt, hi⟩ := List.mem_iff_getElem.mp hb
    have hget : (blockingScripts (scriptElements doc))[i]? = some e := by
      rw [List.getElem?_eq_getElem hlt, hi]
    obtain ⟨ev, hev⟩ := find_of_mem_tasks events i (hall i hlt)
    obtain ⟨r, hr, hu, _⟩ := enrich_ok env e ev.outcome
    obtain ⟨_, _, hrows, hcov, _⟩ := analyze_core env doc events
    have hs := hcov i hlt (hall i hlt)
    have hG : some r ∈ (analyze env doc events).settled.map
        (fun i => ((blockingScripts (scriptElements doc))[i]?).bind (fun s =>
          (events.find? (fun ev => ev.task == i)).bind (fun ev => enrich env s ev.outcome))) := by
      refine List.mem_map.mpr ⟨i, hs, ?_⟩
      simp only [hget, hev, Option.bind]
      exact hr
    rw [← hrows, List.mem_map] at hG
    obtain ⟨r2, hr2, he2⟩ := hG
    have : r2 = r := Option.some.inj he2
    exact ⟨i, ev, r, hget, hev, hr, hu, this ▸ hr2⟩

/-- C9 as stated fails: a script whose `src` attribute is the empty string is
a candidate, and the run reports a record for it. -/
theorem empty_src_yields_record :
    (scriptTag "").getAttribute "src" = some "" ∧
      scriptTag "" ∈ scriptElements [scriptTag ""] ∧
      scriptTag "" ∈ blockingScripts (scriptElements [scriptTag ""]) ∧
      (analyze exampleEnv [scriptTag ""]
          [{ task := 0, outcome := Except.ok (okResponse none) }]).renderBlockingScripts =
        [{ URL := some "https://shop.example.com/", Domain := "example.com",
           fileSizeKB := "N/A" }] := by
  decide

/-- C9, on a page with an image, two scripts with an empty `src`, an inline
script, an SVG script and a deferred script. -/
theorem scriptElements_candidates_witness :
    (List.Sublist (scriptElements mixedDoc) mixedDoc ∧
      (∀ e, e ∈ scriptElements mixedDoc ↔
        e ∈ mixedDoc ∧ e.localName = "script" ∧ e.hasAttribute "src" = true) ∧
      (∀ e, e.localName = "script" → e.hasAttribute "src" = true →
        (scriptElements mixedDoc).count e = mixedDoc.count e) ∧
      (∀ e value, e ∈ mixedDoc → e.localName = "script" → ("src", value) ∈ e.attributes →
        e ∈ scriptElements mixedDoc) ∧
      (∀ e value, e ∈ mixedDoc → e.localName = "script" → ("src", value) ∈ e.attributes →
        e.hasAttribute "async" = false → e.hasAttribute "defer" = false →
        e ∈ blockingScripts (scriptElements mixedDoc) ∧
          ((∀ i, i < (blockingScripts (scriptElements mixedDoc)).length →
              i ∈ mixedEvents.map (fun ev => ev.task)) →
            ∃ i ev r, (blockingScripts (scriptElements mixedDoc))[i]? = some e ∧
              mixedEvents.find? (fun x => x.task == i) = some ev ∧
              enrich exampleEnv e ev.outcome = some r ∧ r.URL = e.src exampleEnv ∧
              r ∈ (analyze exampleEnv mixedDoc mixedEvents).renderBlockingScripts))) ∧
      scriptElements mixedDoc =
        [ scriptTag "",
          { namespaceURI := svgNamespace, localName := "script",
            attributes := [("src", "/chart.js")] },
          htmlTag "script" [("src", "/late.js"), ("defer", "")],
          scriptTag "",
          scriptTag "https://cdn.a.com/x.js" ] ∧
      (scriptElements mixedDoc).count (scriptTag "") = 2 ∧
      enrich exampleEnv (scriptTag "") (Except.ok (okResponse none)) =
        some { URL := some "https://shop.example.com/", Domain := "example.com",
               fileSizeKB := "N/A" } :=
  ⟨scriptElements_candidates exampleEnv mixedDoc mixedEvents, by decide, by decide, by decide⟩

/-- C2, on a page with an image, scripts with and without `src`, an SVG
script and a deferred script, the probes settling out of order, one of them
twice and one failing: four rows, one per blocking script. -/
theorem record_set_witness :
    (∀ i, i < (blockingScripts (scriptElements mixedDoc)).length →
        i ∈ mixedEvents.map (fun ev => ev.task)) ∧
      (analyze exampleEnv mixedDoc mixedEvents).rejected = none ∧
      List.Perm (analyze exampleEnv mixedDoc mixedEvents).settled
        (List.range (blockingScripts (scriptElements mixedDoc)).length) ∧
      (analyze exampleEnv mixedDoc mixedEvents).renderBlockingScripts.map some =
        (analyze exampleEnv mixedDoc mixedEvents).settled.map
          (fun i => ((blockingScripts (scriptElements mixedDoc))[i]?).bind (fun s =>
            (mixedEvents.find? (fun ev => ev.task == i)).bind
              (fun ev => enrich exampleEnv s ev.outcome))) ∧
      (analyze exampleEnv mixedDoc mixedEvents).renderBlockingScripts.length =
        (blockingScripts (scriptElements mixedDoc)).length ∧
      blockingScripts (scriptElements mixedDoc) =
        [ scriptTag "",
          { namespaceURI := svgNamespace, localName := "script",
            attributes := [("src", "/chart.js")] },
          scriptTag "",
          scriptTag "https://cdn.a.com/x.js" ] ∧
      (analyze exampleEnv mixedDoc mixedEvents).settled = [3, 1, 0, 2] ∧
      (analyze exampleEnv mixedDoc mixedEvents).renderBlockingScripts =
        [ { URL := some "https://cdn.a.com/x.js", Domain := "a.com", fileSizeKB := "2.00" },
          { URL := none, Domain := "example.com", fileSizeKB := "Unavailable" },
          { URL := some "https://shop.example.com/", Domain := "example.com",
            fileSizeKB := "N/A" },
          { URL := some "https://shop.example.com/", Domain := "example.com",
            fileSizeKB := "Unavailable" } ] ∧
      (analyze exampleEnv mixedDoc mixedEvents).probes =
        ["https://shop.example.com/", "undefined", "https://shop.example.com/",
          "https://cdn.a.com/x.js"] :=
  have h := record_set exampleEnv mixedDoc mixedEvents (by decide)
  ⟨by decide, h.1, h.2.2.2.2.2.2.2.1, h.2.2.2.2.2.2.2.2.1, h.2.2.2.2.2.2.2.2.2.2.2.1,
    by decide, by decide, by decide, by decide⟩

/-- C6, on a page whose scripts are deferred, async or inline. -/
theorem empty_short_circuit_witness :
    (∀ e ∈ deferredDoc, e.localName = "script" → e.hasAttribute "src" = true →
        e.hasAttribute "async" = true ∨ e.hasAttribute "defer" = true) ∧
      ((analyze exampleEnv deferredDoc reversedEvents).console =
          [ConsoleEvent.log noBlockingMessage] ∧
        (analyze exampleEnv deferredDoc reversedEvents).probes = [] ∧
        (∀ rows, ConsoleEvent.table rows ∉ (analyze exampleEnv deferredDoc reversedEvents).console) ∧
        (analyze exampleEnv deferredDoc reversedEvents).renderBlockingScripts = []) :=
  ⟨by decide, empty_short_circuit exampleEnv deferredDoc reversedEvents (by decide)⟩

/-- C10 as stated fails: the two probes of the scenario settle in reverse
order, and the row of `/local.js` comes before the row of `x.js`. -/
theorem rows_not_in_document_order :
    List.Perm (reversedEvents.map (fun ev => ev.task))
        (List.range (blockingScripts (scriptElements exampleDoc)).length) ∧
      (blockingScripts (scriptElements exampleDoc)).map (fun s => s.src exampleEnv) =
        [some "https://cdn.a.com/x.js", some "https://shop.example.com/local.js"] ∧
      (analyze exampleEnv exampleDoc reversedEvents).renderBlockingScripts.map (fun r => r.URL) =
        [some "https://shop.example.com/local.js", some "https://cdn.a.com/x.js"] ∧
      ¬ ∀ (env : Env) (doc : Document) (events : List ProbeEvent),
        List.Perm (events.map (fun ev => ev.task))
            (List.range (blockingScripts (scriptElements doc)).length) →
          (analyze env doc events).renderBlockingScripts.map (fun r => r.URL) =
            (blockingScripts (scriptElements doc)).map (fun s => s.src env) := by
  refine ⟨by decide, by decide, by decide, ?_⟩
  intro h
  have h2 := h exampleEnv exampleDoc reversedEvents (by decide)
  revert h2
  decide

/-- C10, on the scenario with the probes settling in reverse order. -/
theorem rows_follow_completion_witness :
    List.Perm (reversedEvents.map (fun ev => ev.task))
        (List.range (blockingScripts (scriptElements exampleDoc)).length) ∧
      ((analyze exampleEnv exampleDoc reversedEvents).renderBlockingScripts.map (fun r => r.URL) =
          reversedEvents.map (fun ev =>
            ((blockingScripts (scriptElements exampleDoc)).map
              (fun s => s.src exampleEnv)).getD ev.task none) ∧
        (reversedEvents.map (fun ev => ev.task) =
            List.range (blockingScripts (scriptElements exampleDoc)).length →
          (analyze exampleEnv exampleDoc reversedEvents).renderBlockingScripts.map
              (fun r => r.URL) =
            (blockingScripts (scriptElements exampleDoc)).map (fun s => s.src exampleEnv)) ∧
        (blockingScripts (scriptElements exampleDoc) ≠ [] →
          ∃ c, (analyze exampleEnv exampleDoc reversedEvents).console =
            c ++ [ConsoleEvent.log foundMessage,
              ConsoleEvent.table
                (analyze exampleEnv exampleDoc reversedEvents).renderBlockingScripts])) :=
  ⟨by decide, rows_follow_completion exampleEnv exampleDoc reversedEvents (by decide)⟩

end RenderBlockingAnalyzer
